import Mathlib

set_option maxRecDepth 8000

namespace SplitPe

/-!
Verification of the SplitPe Ledger & Settlement Engine.

This file shallowly embeds the pure computational core of the repository:
the split calculators and validation guard of `src/utils/calculations.ts`,
the balance aggregator `calculateUserBalances` of `src/stores/useAppStore.ts`,
and the settlement optimizer `optimizeSettlements` of
`src/utils/calculations.ts`.

Modelling conventions:
* JavaScript numbers holding money are embedded as exact rationals `ℚ`
  (the spec's Money is a 2-decimal value; all claims are stated at cent
  granularity, where `ℚ` and IEEE doubles agree on the inputs used here).
* `Math.round x` is `⌊x + 1/2⌋` (JavaScript rounds half toward +∞).
* Functions that `throw` are embedded as `Except String`.
* `Date.now()` is an ambient-clock parameter `now : ℕ`; `new Date()` is
  that same instant.
* The `while` loop of `optimizeSettlements` has no syntactic bound, so it
  is embedded with explicit fuel and returns `none` on fuel exhaustion.
* Structures keep only the fields the embedded operations read or write;
  unread UI fields (titles, avatars, receipts, ...) are omitted.
-/

/-- Embeds `roundToTwoDecimals` / the inlined `Math.round(x * 100) / 100`
pattern of src/utils/calculations.ts: round to two decimals, halves toward
+∞ (JavaScript `Math.round` semantics). -/
def round2 (x : ℚ) : ℚ := (⌊x * 100 + 1 / 2⌋ : ℚ) / 100

/-- Embeds the `ExpenseParticipant` interface of src/types (userId, amount,
isPaid; the optional `paidAt` timestamp is never read by the core). -/
structure ExpenseParticipant where
  userId : String
  amount : ℚ
  isPaid : Bool
deriving DecidableEq, Repr

/-- Embeds the `reduce((acc, p) => acc + p.amount, 0)` sums over
participant lists used throughout src/utils/calculations.ts. -/
def sumAmounts (participants : List ExpenseParticipant) : ℚ :=
  participants.foldl (fun acc p => acc + p.amount) 0

/-- Replace the element at an index, leaving the list unchanged when the
index is out of range (array write `participants[i] = ...`). -/
def modifyIdx (f : ExpenseParticipant → ExpenseParticipant) :
    ℕ → List ExpenseParticipant → List ExpenseParticipant
  | _, [] => []
  | 0, p :: ps => f p :: ps
  | i + 1, p :: ps => p :: modifyIdx f i ps

/-- Embeds the rounding-fix `while` loop of `calculateEqualSplit`
(src/utils/calculations.ts lines 17-25).  Each iteration recomputes
`diff = round2 (totalAmount - sum)` from the current participant list,
and while `|diff| > 0.009 ∧ i < n` adds the whole `diff` to participant
`i`.  The loop index `i` increases every iteration and the guard requires
`i < n`, so `n` units of fuel (passed by the caller) make the embedding
exact: fuel runs out only when the guard is already false. -/
def adjustLoop (totalAmount : ℚ) (n : ℕ) :
    ℕ → ℕ → List ExpenseParticipant → List ExpenseParticipant
  | 0, _, participants => participants
  | fuel + 1, i, participants =>
    let diff := round2 (totalAmount - sumAmounts participants)
    if 9 / 1000 < |diff| ∧ i < n then
      adjustLoop totalAmount n fuel (i + 1)
        (modifyIdx (fun p => { p with amount := round2 (p.amount + diff) }) i participants)
    else participants

/-- Embeds `calculateEqualSplit` (src/utils/calculations.ts lines 3-27).
An empty participant list yields `[]` (the source returns `[]`, it does
not throw). -/
def calculateEqualSplit (totalAmount : ℚ) (participantIds : List String) :
    List ExpenseParticipant :=
  let n := participantIds.length
  if n = 0 then []
  else
    let rawPerPerson := totalAmount / n
    let roundedPerPerson := round2 rawPerPerson
    let participants := participantIds.map fun userId =>
      ({ userId := userId, amount := roundedPerPerson, isPaid := false } : ExpenseParticipant)
    adjustLoop totalAmount n n 0 participants

/-- Entry of the `customAmounts` argument of `calculateCustomSplit`. -/
structure CustomAmount where
  userId : String
  amount : ℚ
deriving DecidableEq, Repr

/-- The `reduce((sum, item) => sum + item.amount, 0)` sum of
`calculateCustomSplit`. -/
def sumCustom (customAmounts : List CustomAmount) : ℚ :=
  customAmounts.foldl (fun sum item => sum + item.amount) 0

/-- Embeds `calculateCustomSplit` (src/utils/calculations.ts lines 29-44):
throws (here: `Except.error` with the source's message string) when the
entry sum differs from the total by more than 0.01, otherwise returns the
amounts exactly as given, all unpaid.  There is no sign check. -/
def calculateCustomSplit (totalAmount : ℚ) (customAmounts : List CustomAmount) :
    Except String (List ExpenseParticipant) :=
  let totalCustomAmount := sumCustom customAmounts
  if 1 / 100 < |totalCustomAmount - totalAmount| then
    Except.error "Custom split amounts do not match total amount"
  else
    Except.ok (customAmounts.map fun item =>
      { userId := item.userId, amount := item.amount, isPaid := false })

/-- Entry of the `percentages` argument of `calculatePercentageSplit`. -/
structure PercentageEntry where
  userId : String
  percentage : ℚ
deriving DecidableEq, Repr

/-- The `reduce((sum, item) => sum + item.percentage, 0)` sum of
`calculatePercentageSplit`. -/
def sumPercent (percentages : List PercentageEntry) : ℚ :=
  percentages.foldl (fun sum item => sum + item.percentage) 0

/-- Embeds `calculatePercentageSplit` (src/utils/calculations.ts lines
46-61): throws when the percentages differ from 100 by more than 0.01,
otherwise each share is `round2 (total * percentage / 100)`.  There is no
sign check. -/
def calculatePercentageSplit (totalAmount : ℚ) (percentages : List PercentageEntry) :
    Except String (List ExpenseParticipant) :=
  let totalPercentage := sumPercent percentages
  if 1 / 100 < |totalPercentage - 100| then
    Except.error "Percentages do not add up to 100%"
  else
    Except.ok (percentages.map fun item =>
      { userId := item.userId
        amount := round2 (totalAmount * item.percentage / 100)
        isPaid := false })

/-- Result record of `validateExpenseParticipants`. -/
structure ValidationResult where
  isValid : Bool
  error : Option String
deriving DecidableEq, Repr

/-- Embeds `validateExpenseParticipants` (src/utils/calculations.ts lines
183-207): empty-set check, then sum-matches-total check (tolerance 0.01),
then non-negative-amount check.  The source's mismatch message
interpolates both sums via `toFixed(2)`; no claim depends on that string,
so it is kept as the constant prefix of the source message. -/
def validateExpenseParticipants (totalAmount : ℚ)
    (participants : List ExpenseParticipant) : ValidationResult :=
  if participants.length = 0 then
    { isValid := false, error := some "At least one participant is required" }
  else
    let totalParticipantAmount := sumAmounts participants
    let difference := |totalAmount - totalParticipantAmount|
    if 1 / 100 < difference then
      { isValid := false, error := some "Participant amounts do not match total amount" }
    else if (participants.filter fun p => p.amount < 0).length > 0 then
      { isValid := false, error := some "Participant amounts cannot be negative" }
    else
      { isValid := true, error := none }

/-- Embeds the `User` interface of src/types; only `id` is read by the
balance aggregator (name, phone, avatar, ... are UI-only). -/
structure User where
  id : String
deriving DecidableEq, Repr

/-- Embeds the `Group` interface of src/types; only `id` and `members` are
read by `calculateUserBalances`. -/
structure Group where
  id : String
  members : List User
deriving DecidableEq, Repr

/-- Embeds the `Expense` interface of src/types; only `groupId`,
`totalAmount`, `paidBy` and `participants` are read by the aggregator. -/
structure Expense where
  id : String
  groupId : String
  totalAmount : ℚ
  paidBy : String
  participants : List ExpenseParticipant
deriving DecidableEq, Repr

/-- Embeds the `UserBalance` interface of src/types. -/
structure UserBalance where
  userId : String
  groupId : String
  totalOwed : ℚ
  totalLent : ℚ
  netBalance : ℚ
deriving DecidableEq, Repr

/-- Embeds the `Settlement` interface of src/types; the optional
`paidAt` / `upiTransactionId` fields are never set by the optimizer.
`createdAt` (a `Date`) is the millisecond clock value. -/
structure Settlement where
  id : String
  fromUserId : String
  toUserId : String
  amount : ℚ
  groupId : String
  expenseIds : List String
  isPaid : Bool
  createdAt : ℕ
deriving DecidableEq, Repr

/-- The slice of the zustand store state (src/stores/useAppStore.ts) that
`calculateUserBalances` reads: the group list and the expense list. -/
structure AppState where
  groups : List Group
  expenses : List Expense
deriving DecidableEq, Repr

/-- Embeds `balanceMap.set k v` on the JavaScript `Map` (insertion-ordered;
setting an existing key overwrites in place, a new key is appended). -/
def mapSet (k : String) (v : UserBalance) :
    List (String × UserBalance) → List (String × UserBalance)
  | [] => [(k, v)]
  | (k', v') :: rest => if k' = k then (k', v) :: rest else (k', v') :: mapSet k v rest

/-- Embeds the `balanceMap.get(k)` / mutate-in-place pattern of
`calculateUserBalances`: when the key is present its (unique, see
`initBalanceMap_keys_nodup`) entry is updated, when it is absent
(`if (paidByBalance)` fails) the map is unchanged. -/
def mapUpdate (k : String) (f : UserBalance → UserBalance)
    (m : List (String × UserBalance)) : List (String × UserBalance) :=
  m.map fun e => if e.1 = k then (e.1, f e.2) else e

/-- The zero balance each group member starts from
(src/stores/useAppStore.ts lines 288-296). -/
def zeroBalance (groupId userId : String) : UserBalance :=
  { userId := userId, groupId := groupId, totalOwed := 0, totalLent := 0, netBalance := 0 }

/-- Embeds the `group.members.forEach(member => balanceMap.set(...))`
initialisation loop of `calculateUserBalances`. -/
def initBalanceMap (groupId : String) (members : List User) :
    List (String × UserBalance) :=
  members.foldl (fun m member => mapSet member.id (zeroBalance groupId member.id) m) []

/-- Embeds `paidByBalance.totalLent += expense.totalAmount`. -/
def addLent (amount : ℚ) (b : UserBalance) : UserBalance :=
  { b with totalLent := b.totalLent + amount }

/-- Embeds `participantBalance.totalOwed += participant.amount`. -/
def addOwed (amount : ℚ) (b : UserBalance) : UserBalance :=
  { b with totalOwed := b.totalOwed + amount }

/-- Embeds the per-participant body of the expense fold: look the
participant up, and only when found and not yet paid add the share to
`totalOwed` (src/stores/useAppStore.ts lines 306-313). -/
def applyParticipant (m : List (String × UserBalance)) (p : ExpenseParticipant) :
    List (String × UserBalance) :=
  if p.isPaid then m else mapUpdate p.userId (addOwed p.amount) m

/-- Embeds the per-expense body of `groupExpenses.forEach`: credit the
payer with the full `totalAmount`, then fold over the participants
(src/stores/useAppStore.ts lines 299-314). -/
def applyExpense (m : List (String × UserBalance)) (e : Expense) :
    List (String × UserBalance) :=
  e.participants.foldl applyParticipant (mapUpdate e.paidBy (addLent e.totalAmount) m)

/-- Embeds the final `balanceMap.forEach` pass that sets
`netBalance = totalLent - totalOwed`. -/
def setNet (b : UserBalance) : UserBalance :=
  { b with netBalance := b.totalLent - b.totalOwed }

/-- Embeds `calculateUserBalances` (src/stores/useAppStore.ts lines
280-324): filter the store's expenses to the group, return `[]` when the
group id does not resolve, otherwise fold the group's expenses over the
per-member balance map and return the map's values in insertion order. -/
def calculateUserBalances (state : AppState) (groupId : String) : List UserBalance :=
  let groupExpenses := state.expenses.filter fun e => e.groupId == groupId
  match state.groups.find? fun g => g.id == groupId with
  | none => []
  | some group =>
    let m0 := initBalanceMap groupId group.members
    let m1 := groupExpenses.foldl applyExpense m0
    m1.map fun e => setNet e.2

/-- Balance used when an index read of the working array would be out of
range; the loop below only reads indices `leftIndex < rightIndex` that are
in range, so this default is never produced by `optimizeSettlements`. -/
def defaultBalance : UserBalance := ⟨"", "", 0, 0, 0⟩

/-- Read `workingBalances[i]`. -/
def getBal (balances : List UserBalance) (i : ℕ) : UserBalance :=
  balances.getD i defaultBalance

/-- Embeds the insertion step of a stable descending sort on `netBalance`:
the element is placed before the first strictly smaller net balance, so
ties keep their original relative order — the behaviour of the stable
JavaScript `sort((a, b) => b.netBalance - a.netBalance)`. -/
def insertDescending (x : UserBalance) : List UserBalance → List UserBalance
  | [] => [x]
  | y :: ys => if y.netBalance < x.netBalance then x :: y :: ys else y :: insertDescending x ys

/-- Stable descending sort by `netBalance`, embedding
`workingBalances.sort((a, b) => b.netBalance - a.netBalance)`. -/
def sortByNetDescending (balances : List UserBalance) : List UserBalance :=
  balances.foldl (fun acc x => insertDescending x acc) []

/-- Loop state of the `while (leftIndex < rightIndex)` loop of
`optimizeSettlements`: the working array, both pointers and the
settlements accumulated so far. -/
structure OptState where
  balances : List UserBalance
  leftIndex : ℕ
  rightIndex : ℕ
  settlements : List Settlement
deriving DecidableEq, Repr

/-- Embeds the settlement id `` `${Date.now()}_${leftIndex}_${rightIndex}` ``. -/
def settlementId (now leftIndex rightIndex : ℕ) : String :=
  toString now ++ "_" ++ toString leftIndex ++ "_" ++ toString rightIndex

/-- The settlement pushed by the body of `optimizeSettlements` (lines
105-114): id from the clock and the two pointers, debtor pays lender the
rounded amount, `expenseIds` left empty, unpaid, created now. -/
def optEmitted (now : ℕ) (st : OptState) : Settlement :=
  { id := settlementId now st.leftIndex st.rightIndex
    fromUserId := (getBal st.balances st.rightIndex).userId
    toUserId := (getBal st.balances st.leftIndex).userId
    amount := round2 (min (getBal st.balances st.leftIndex).netBalance
      |(getBal st.balances st.rightIndex).netBalance|)
    groupId := (getBal st.balances st.leftIndex).groupId
    expenseIds := []
    isPaid := false
    createdAt := now }

/-- The working array after the body's two in-place mutations (lines
117-118): the *unrounded* settlement amount is subtracted from the lender
and added to the debtor. -/
def optNewBalances (st : OptState) : List UserBalance :=
  let lender := getBal st.balances st.leftIndex
  let debtor := getBal st.balances st.rightIndex
  let settlementAmount := min lender.netBalance |debtor.netBalance|
  (st.balances.set st.leftIndex
      { lender with netBalance := lender.netBalance - settlementAmount }).set
    st.rightIndex { debtor with netBalance := debtor.netBalance + settlementAmount }

/-- Embeds `if (Math.abs(lender.netBalance) < 0.01) leftIndex++` at the
end of the loop body (lines 122-124). -/
def optAdvanceLeft (st : OptState) : OptState :=
  if |(getBal st.balances st.leftIndex).netBalance| < 1 / 100 then
    { st with leftIndex := st.leftIndex + 1 }
  else st

/-- Embeds `if (Math.abs(debtor.netBalance) < 0.01) rightIndex--` at the
end of the loop body (lines 125-127). -/
def optAdvanceRight (st : OptState) : OptState :=
  if |(getBal st.balances st.rightIndex).netBalance| < 1 / 100 then
    { st with rightIndex := st.rightIndex - 1 }
  else st

/-- One iteration of the `while` body of `optimizeSettlements`
(src/utils/calculations.ts lines 74-128).  The four `continue` guards,
then the settlement emission (only when the amount exceeds 0.01,
subtracting the *unrounded* amount from both sides), then the two
conditional pointer advances.  JavaScript object mutation of
`lender`/`debtor` is a `List.set` at the pointer's index; reading
`lender.netBalance` after the mutation is a read of the updated array
cell. -/
def optStep (now : ℕ) (st : OptState) : OptState :=
  let lender := getBal st.balances st.leftIndex
  let debtor := getBal st.balances st.rightIndex
  if |lender.netBalance| < 1 / 100 then { st with leftIndex := st.leftIndex + 1 }
  else if |debtor.netBalance| < 1 / 100 then { st with rightIndex := st.rightIndex - 1 }
  else if lender.netBalance ≤ 0 then { st with leftIndex := st.leftIndex + 1 }
  else if 0 ≤ debtor.netBalance then { st with rightIndex := st.rightIndex - 1 }
  else
    let settlementAmount := min lender.netBalance |debtor.netBalance|
    let st1 :=
      if 1 / 100 < settlementAmount then
        { st with
          settlements := st.settlements ++ [optEmitted now st]
          balances := optNewBalances st }
      else st
    optAdvanceRight (optAdvanceLeft st1)

/-- The `while (leftIndex < rightIndex)` loop with explicit fuel.  The
source loop has no syntactic termination argument (and indeed does not
terminate on all inputs, see `optimizeSettlements_stuck_forever`), so the
embedding returns `none` when fuel runs out and `some settlements` when
the loop exits normally. -/
def optimizeLoop (now : ℕ) : ℕ → OptState → Option (List Settlement)
  | 0, _ => none
  | fuel + 1, st =>
    if st.leftIndex < st.rightIndex then optimizeLoop now fuel (optStep now st)
    else some st.settlements

/-- Embeds `optimizeSettlements` (src/utils/calculations.ts lines 63-131):
copy (value semantics make the `map(b => ({...b}))` copy the identity),
stable-sort descending by net balance, then run the two-pointer loop from
`(0, length - 1)` with an empty settlement list. -/
def optimizeSettlements (now fuel : ℕ) (balances : List UserBalance) :
    Option (List Settlement) :=
  let workingBalances := sortByNetDescending balances
  optimizeLoop now fuel
    { balances := workingBalances
      leftIndex := 0
      rightIndex := workingBalances.length - 1
      settlements := [] }

/-! ### Measures used to state the claims -/

/-- Sum of the `netBalance` fields of a balance list (spec §8, balance
conservation). -/
def netBalanceSum (balances : List UserBalance) : ℚ :=
  (balances.map fun b => b.netBalance).sum

/-- Sum of the `amount` fields of a settlement list (spec §8, settlement
conservation). -/
def sumSettleAmounts (settlements : List Settlement) : ℚ :=
  (settlements.map fun s => s.amount).sum

/-- Sum of the positive net balances of a balance list (spec §8:
`sum(positive netBalances)`). -/
def posNetSum (balances : List UserBalance) : ℚ :=
  (balances.map fun b => max b.netBalance 0).sum

/-- `x` is an exact multiple of one cent.  All claims about settlement
conservation are stated at this granularity (spec §3: Money has exactly
two fractional digits of meaning). -/
def isCent (x : ℚ) : Prop := ∃ j : ℤ, x = (j : ℚ) / 100

/-- The time-independent projection of a settlement: every field except
the wall-clock derived `id` and `createdAt`. -/
def eraseTime (s : Settlement) :
    String × String × ℚ × String × List String × Bool :=
  (s.fromUserId, s.toUserId, s.amount, s.groupId, s.expenseIds, s.isPaid)

/-- Two balances of exactly +0.01 and -0.01: every guard of the loop body
fails (`|±0.01| < 0.01` is false, the signs are right), the tentative
amount is `min 0.01 0.01 = 0.01`, which fails the strict `> 0.01` emission
test, so nothing is emitted, no net balance changes and neither pointer
advances. -/
def stuckBalances : List UserBalance :=
  [⟨"A", "g", 0, 0, 1 / 100⟩, ⟨"B", "g", 0, 0, -1 / 100⟩]

/-- Demonstration balances: A is owed 100, B owes 100. -/
def demoBals : List UserBalance :=
  [⟨"A", "g", 0, 0, 100⟩, ⟨"B", "g", 0, 0, -100⟩]

/-- The settlement `optimizeSettlements` emits for `demoBals` when
invoked at clock value `now`. -/
def demoSettlement (now : ℕ) : Settlement :=
  ⟨settlementId now 0 1, "B", "A", 100, "g", [], false, now⟩

/-- Demonstration balance holding a single creditor of 1. -/
def soloBalances : List UserBalance := [⟨"A", "g", 0, 0, 1⟩]

/-- Two optimizer loop states agree up to time erasure: equal working
arrays and pointers, and settlement lists equal after `eraseTime`. -/
def ErasedEq (s t : OptState) : Prop :=
  s.balances = t.balances ∧ s.leftIndex = t.leftIndex ∧
    s.rightIndex = t.rightIndex ∧
    s.settlements.map eraseTime = t.settlements.map eraseTime

/-- The keys of a balance map (member ids, in insertion order). -/
def mapKeys (m : List (String × UserBalance)) : List String := m.map Prod.fst

/-- The sum of `totalLent - totalOwed` over the entries of a balance map:
after the final `setNet` pass this is exactly the net-balance sum of the
returned list. -/
def mapNetSum (m : List (String × UserBalance)) : ℚ :=
  (m.map fun e => e.2.totalLent - e.2.totalOwed).sum

/-- Three members A, B, C used by the balance-aggregation scenarios. -/
def abcMembers : List User := [⟨"A"⟩, ⟨"B"⟩, ⟨"C"⟩]

/-- Spec §8 scenario 2: A pays 300, equal split of 100 each, and A's own
share is already marked paid. -/
def paidShareState : AppState :=
  ⟨[⟨"g1", abcMembers⟩],
   [⟨"e1", "g1", 300, "A",
     [⟨"A", 100, true⟩, ⟨"B", 100, false⟩, ⟨"C", 100, false⟩]⟩]⟩

/-- The same expense with every share still unpaid. -/
def unpaidState : AppState :=
  ⟨[⟨"g1", abcMembers⟩],
   [⟨"e1", "g1", 300, "A",
     [⟨"A", 100, false⟩, ⟨"B", 100, false⟩, ⟨"C", 100, false⟩]⟩]⟩

/-! ### Spec scenario checks -/

example : calculateEqualSplit 100 ["A", "B", "C"] =
    [⟨"A", 3334 / 100, false⟩, ⟨"B", 3333 / 100, false⟩, ⟨"C", 3333 / 100, false⟩] := by
  norm_num [calculateEqualSplit, adjustLoop, modifyIdx, sumAmounts, round2,
    abs_of_pos, abs_of_neg, abs_of_nonneg, abs_of_nonpos]

example : calculateEqualSplit (1 / 50) ["a", "b", "c", "d"] =
    [⟨"a", -1 / 100, false⟩, ⟨"b", 1 / 100, false⟩,
     ⟨"c", 1 / 100, false⟩, ⟨"d", 1 / 100, false⟩] := by
  norm_num [calculateEqualSplit, adjustLoop, modifyIdx, sumAmounts, round2,
    abs_of_pos, abs_of_neg, abs_of_nonneg, abs_of_nonpos]

/-! ### Arithmetic lemmas about rounding and cent multiples -/

theorem round2_cent (j : ℤ) : round2 ((j : ℚ) / 100) = (j : ℚ) / 100 := by
  have h : ((j : ℚ) / 100) * 100 = (j : ℚ) := by
    field_simp
  have h2 : ⌊(j : ℚ) + 1 / 2⌋ = j := by
    rw [add_comm, Int.floor_add_int]
    norm_num
  rw [round2, h, h2]

theorem isCent_round2 (x : ℚ) : isCent (round2 x) := ⟨⌊x * 100 + 1 / 2⌋, rfl⟩

theorem round2_eq_self {x : ℚ} (h : isCent x) : round2 x = x := by
  obtain ⟨j, rfl⟩ := h
  exact round2_cent j

theorem isCent_zero : isCent 0 := ⟨0, by norm_num⟩

theorem isCent_add {x y : ℚ} (hx : isCent x) (hy : isCent y) : isCent (x + y) := by
  obtain ⟨j, rfl⟩ := hx
  obtain ⟨k, rfl⟩ := hy
  exact ⟨j + k, by push_cast; ring⟩

theorem isCent_neg {x : ℚ} (hx : isCent x) : isCent (-x) := by
  obtain ⟨j, rfl⟩ := hx
  exact ⟨-j, by push_cast; ring⟩

theorem isCent_sub {x y : ℚ} (hx : isCent x) (hy : isCent y) : isCent (x - y) := by
  rw [sub_eq_add_neg]
  exact isCent_add hx (isCent_neg hy)

theorem isCent_abs {x : ℚ} (hx : isCent x) : isCent |x| := by
  rcases abs_choice x with h | h
  · rwa [h]
  · rw [h]; exact isCent_neg hx

theorem isCent_min {x y : ℚ} (hx : isCent x) (hy : isCent y) : isCent (min x y) := by
  rcases min_choice x y with h | h <;> rw [h] <;> assumption

theorem isCent_natMul {x : ℚ} (n : ℕ) (hx : isCent x) : isCent ((n : ℚ) * x) := by
  obtain ⟨j, rfl⟩ := hx
  exact ⟨n * j, by push_cast; ring⟩

/-- A nonzero cent multiple is at least one cent in absolute value. -/
theorem isCent_ne_zero_bound {x : ℚ} (hx : isCent x) (h0 : x ≠ 0) : 1 / 100 ≤ |x| := by
  obtain ⟨j, rfl⟩ := hx
  have hj : j ≠ 0 := by
    intro h
    exact h0 (by rw [h]; norm_num)
  have h1 : (1 : ℚ) ≤ |(j : ℚ)| := by
    have h2 := Int.one_le_abs hj
    have h3 : ((1 : ℤ) : ℚ) ≤ ((|j| : ℤ) : ℚ) := by exact_mod_cast h2
    rw [Int.cast_abs] at h3
    simpa using h3
  rw [abs_div, abs_of_pos (by norm_num : (0:ℚ) < 100)]
  linarith

/-! ### Sum lemmas -/

theorem sumAmounts_nil : sumAmounts [] = 0 := rfl

theorem foldl_amount_shift (ps : List ExpenseParticipant) :
    ∀ c : ℚ, ps.foldl (fun acc p => acc + p.amount) c =
      c + ps.foldl (fun acc p => acc + p.amount) 0 := by
  induction ps with
  | nil => intro c; simp
  | cons p ps ih =>
    intro c
    rw [List.foldl_cons, List.foldl_cons, ih (c + p.amount), ih (0 + p.amount)]
    ring

theorem sumAmounts_cons (p : ExpenseParticipant) (ps : List ExpenseParticipant) :
    sumAmounts (p :: ps) = p.amount + sumAmounts ps := by
  unfold sumAmounts
  rw [List.foldl_cons, foldl_amount_shift]
  ring

theorem sumAmounts_constMap (c : ℚ) (ids : List String) :
    sumAmounts (ids.map fun u => ({ userId := u, amount := c, isPaid := false } : ExpenseParticipant)) =
      (ids.length : ℚ) * c := by
  induction ids with
  | nil => simp [sumAmounts]
  | cons u t ih =>
    rw [List.map_cons, sumAmounts_cons, ih, List.length_cons]
    push_cast
    ring

/-! ### Equal split: exact behaviour on cent-multiple totals -/

theorem round2_zero : round2 0 = 0 := by
  unfold round2
  norm_num

/-- If the current rounding difference is zero the fix-up loop is the
identity, whatever fuel and index it starts from. -/
theorem adjustLoop_zero_diff (total : ℚ) (n : ℕ) (ps : List ExpenseParticipant)
    (h : round2 (total - sumAmounts ps) = 0) :
    ∀ fuel i, adjustLoop total n fuel i ps = ps := by
  intro fuel i
  cases fuel with
  | zero => rfl
  | succ m =>
    simp only [adjustLoop, h]
    norm_num

/-- Unfolding of `calculateEqualSplit` on a non-empty list. -/
theorem calculateEqualSplit_cons (total : ℚ) (u : String) (t : List String) :
    calculateEqualSplit total (u :: t) =
      adjustLoop total (t.length + 1) (t.length + 1) 0
        ((u :: t).map fun userId =>
          ({ userId := userId
             amount := round2 (total / ((t.length + 1 : ℕ) : ℚ))
             isPaid := false } : ExpenseParticipant)) := by
  simp only [calculateEqualSplit, List.length_cons, if_neg (Nat.succ_ne_zero t.length)]

/-- One fix-up iteration of the rounding loop when the guard holds. -/
theorem adjustLoop_one_step (total : ℚ) (n m i : ℕ) (ps : List ExpenseParticipant)
    (hguard : 9 / 1000 < |round2 (total - sumAmounts ps)|) (hi : i < n) :
    adjustLoop total n (m + 1) i ps =
      adjustLoop total n m (i + 1)
        (modifyIdx
          (fun p => { p with amount := round2 (p.amount + round2 (total - sumAmounts ps)) })
          i ps) := by
  simp only [adjustLoop]
  rw [if_pos ⟨hguard, hi⟩]

/-- C3 (amended core): on a positive cent-multiple total and a non-empty
participant list, `calculateEqualSplit` returns one share per participant,
all equal to `round2 (total / n)` except the first, which additionally
absorbs the entire rounding remainder `total - n * round2 (total / n)` in
a single adjustment; the shares sum exactly to the total. -/
theorem equalSplit_cent_exact (total : ℚ) (k : ℤ) (u : String) (t : List String)
    (hk : total = (k : ℚ) / 100) (hpos : 0 < total) :
    calculateEqualSplit total (u :: t) =
      ({ userId := u
         amount := round2 (total / ((t.length + 1 : ℕ) : ℚ)) +
           (total - ((t.length + 1 : ℕ) : ℚ) * round2 (total / ((t.length + 1 : ℕ) : ℚ)))
         isPaid := false } : ExpenseParticipant)
        :: (t.map fun v =>
          ({ userId := v
             amount := round2 (total / ((t.length + 1 : ℕ) : ℚ))
             isPaid := false } : ExpenseParticipant)) ∧
    sumAmounts (calculateEqualSplit total (u :: t)) = total ∧
    (calculateEqualSplit total (u :: t)).length = t.length + 1 := by
  have hbase_cent : isCent (round2 (total / ((t.length + 1 : ℕ) : ℚ))) := isCent_round2 _
  have hd_cent : isCent
      (total - ((t.length + 1 : ℕ) : ℚ) * round2 (total / ((t.length + 1 : ℕ) : ℚ))) :=
    isCent_sub ⟨k, hk⟩ (isCent_natMul _ hbase_cent)
  have hsum0 : sumAmounts ((u :: t).map fun userId =>
      ({ userId := userId
         amount := round2 (total / ((t.length + 1 : ℕ) : ℚ))
         isPaid := false } : ExpenseParticipant)) =
      ((t.length + 1 : ℕ) : ℚ) * round2 (total / ((t.length + 1 : ℕ) : ℚ)) := by
    rw [sumAmounts_constMap, List.length_cons]
  have hdiff0 : round2 (total - sumAmounts ((u :: t).map fun userId =>
      ({ userId := userId
         amount := round2 (total / ((t.length + 1 : ℕ) : ℚ))
         isPaid := false } : ExpenseParticipant))) =
      total - ((t.length + 1 : ℕ) : ℚ) * round2 (total / ((t.length + 1 : ℕ) : ℚ)) := by
    rw [hsum0]
    exact round2_eq_self hd_cent
  by_cases hd0 : total - ((t.length + 1 : ℕ) : ℚ) * round2 (total / ((t.length + 1 : ℕ) : ℚ)) = 0
  · -- no remainder: the loop guard is false immediately
    have hres : calculateEqualSplit total (u :: t) = (u :: t).map fun userId =>
        ({ userId := userId
           amount := round2 (total / ((t.length + 1 : ℕ) : ℚ))
           isPaid := false } : ExpenseParticipant) := by
      rw [calculateEqualSplit_cons]
      exact adjustLoop_zero_diff total (t.length + 1) _ (by rw [hdiff0, hd0])
        (t.length + 1) 0
    refine ⟨?_, ?_, ?_⟩
    · rw [hres, List.map_cons, hd0, add_zero]
    · rw [hres, hsum0]
      have hiff : total = ((t.length + 1 : ℕ) : ℚ) * round2 (total / ((t.length + 1 : ℕ) : ℚ)) := by
        have h2 := sub_eq_zero.mp hd0
        linarith
      linarith
    · rw [hres, List.length_map, List.length_cons]
  · -- nonzero remainder: exactly one fix-up iteration runs, then the sum is exact
    have hbound := isCent_ne_zero_bound hd_cent hd0
    have hguard : 9 / 1000 < |round2 (total - sumAmounts ((u :: t).map fun userId =>
        ({ userId := userId
           amount := round2 (total / ((t.length + 1 : ℕ) : ℚ))
           isPaid := false } : ExpenseParticipant)))| := by
      rw [hdiff0]
      linarith
    have hstep : modifyIdx
        (fun p => { p with amount := round2 (p.amount + round2 (total - sumAmounts ((u :: t).map fun userId =>
          ({ userId := userId
             amount := round2 (total / ((t.length + 1 : ℕ) : ℚ))
             isPaid := false } : ExpenseParticipant)))) }) 0
        ((u :: t).map fun userId =>
          ({ userId := userId
             amount := round2 (total / ((t.length + 1 : ℕ) : ℚ))
             isPaid := false } : ExpenseParticipant)) =
        ({ userId := u
           amount := round2 (total / ((t.length + 1 : ℕ) : ℚ)) +
             (total - ((t.length + 1 : ℕ) : ℚ) * round2 (total / ((t.length + 1 : ℕ) : ℚ)))
           isPaid := false } : ExpenseParticipant)
          :: (t.map fun v =>
            ({ userId := v
               amount := round2 (total / ((t.length + 1 : ℕ) : ℚ))
               isPaid := false } : ExpenseParticipant)) := by
      rw [hdiff0, List.map_cons]
      simp only [modifyIdx]
      rw [round2_eq_self (isCent_add hbase_cent hd_cent)]
    have hsum1 : sumAmounts
        (({ userId := u
            amount := round2 (total / ((t.length + 1 : ℕ) : ℚ)) +
              (total - ((t.length + 1 : ℕ) : ℚ) * round2 (total / ((t.length + 1 : ℕ) : ℚ)))
            isPaid := false } : ExpenseParticipant)
          :: (t.map fun v =>
            ({ userId := v
               amount := round2 (total / ((t.length + 1 : ℕ) : ℚ))
               isPaid := false } : ExpenseParticipant))) = total := by
      rw [sumAmounts_cons, sumAmounts_constMap]
      push_cast
      ring
    have hres : calculateEqualSplit total (u :: t) =
        ({ userId := u
           amount := round2 (total / ((t.length + 1 : ℕ) : ℚ)) +
             (total - ((t.length + 1 : ℕ) : ℚ) * round2 (total / ((t.length + 1 : ℕ) : ℚ)))
           isPaid := false } : ExpenseParticipant)
          :: (t.map fun v =>
            ({ userId := v
               amount := round2 (total / ((t.length + 1 : ℕ) : ℚ))
               isPaid := false } : ExpenseParticipant)) := by
      rw [calculateEqualSplit_cons,
        adjustLoop_one_step total (t.length + 1) t.length 0 _ hguard (Nat.succ_pos t.length),
        hstep]
      exact adjustLoop_zero_diff total (t.length + 1) _
        (by rw [hsum1, sub_self, round2_zero]) t.length 1
    refine ⟨hres, ?_, ?_⟩
    · rw [hres, hsum1]
    · rw [hres]
      simp [List.length_map]

/-- C3 (counterexample): the claim's spread bound and cent-by-cent
remainder policy fail.  `calculateEqualSplit 0.02 [a,b,c,d]` rounds the
per-person share up to 0.01, then dumps the whole -0.02 correction on the
first participant in a single adjustment, producing shares
[-0.01, 0.01, 0.01, 0.01]: the spread is 0.02 > 0.01 (and the first
share is even negative).  Moreover for a non-cent total the sum is not
exact: `calculateEqualSplit 0.005 [x]` returns [0.01], which does not sum
to 0.005. -/
theorem equalSplit_spread_counterexample :
    calculateEqualSplit (1 / 50) ["a", "b", "c", "d"] =
      [⟨"a", -1 / 100, false⟩, ⟨"b", 1 / 100, false⟩,
       ⟨"c", 1 / 100, false⟩, ⟨"d", 1 / 100, false⟩] ∧
    (∃ p ∈ calculateEqualSplit (1 / 50) ["a", "b", "c", "d"],
      ∃ q ∈ calculateEqualSplit (1 / 50) ["a", "b", "c", "d"],
        1 / 100 < p.amount - q.amount) ∧
    sumAmounts (calculateEqualSplit (1 / 200) ["x"]) ≠ 1 / 200 := by
  have h1 : calculateEqualSplit (1 / 50) ["a", "b", "c", "d"] =
      [⟨"a", -1 / 100, false⟩, ⟨"b", 1 / 100, false⟩,
       ⟨"c", 1 / 100, false⟩, ⟨"d", 1 / 100, false⟩] := by
    norm_num [calculateEqualSplit, adjustLoop, modifyIdx, sumAmounts, round2,
      abs_of_pos, abs_of_neg, abs_of_nonneg, abs_of_nonpos]
  refine ⟨h1, ⟨⟨"b", 1 / 100, false⟩, ?_, ⟨"a", -1 / 100, false⟩, ?_, ?_⟩, ?_⟩
  · rw [h1]
    simp
  · rw [h1]
    simp
  · norm_num
  · norm_num [calculateEqualSplit, adjustLoop, modifyIdx, sumAmounts, round2,
      abs_of_pos, abs_of_neg, abs_of_nonneg, abs_of_nonpos]

/-- C3 (witness): the spec's scenario 1 — splitting 100 among three
participants — sums exactly to 100 and returns three shares. -/
theorem equalSplit_cent_exact_witness :
    sumAmounts (calculateEqualSplit 100 ["A", "B", "C"]) = 100 ∧
    (calculateEqualSplit 100 ["A", "B", "C"]).length = 3 :=
  ⟨(equalSplit_cent_exact 100 10000 "A" ["B", "C"] (by norm_num) (by norm_num)).2.1,
   (equalSplit_cent_exact 100 10000 "A" ["B", "C"] (by norm_num) (by norm_num)).2.2⟩

/-! ### Generic unfolding lemmas for the settlement loop -/

theorem optimizeLoop_step (now fuel : ℕ) (st : OptState)
    (h : st.leftIndex < st.rightIndex) :
    optimizeLoop now (fuel + 1) st = optimizeLoop now fuel (optStep now st) := by
  simp only [optimizeLoop, if_pos h]

theorem optimizeLoop_exit (now fuel : ℕ) (st : OptState)
    (h : ¬ st.leftIndex < st.rightIndex) :
    optimizeLoop now (fuel + 1) st = some st.settlements := by
  simp only [optimizeLoop, if_neg h]

/-! ### Branch lemmas for one loop iteration -/

theorem optStep_skip1 (now : ℕ) (st : OptState)
    (h1 : |(getBal st.balances st.leftIndex).netBalance| < 1 / 100) :
    optStep now st = { st with leftIndex := st.leftIndex + 1 } := by
  simp only [optStep]
  rw [if_pos h1]

theorem optStep_skip2 (now : ℕ) (st : OptState)
    (h1 : ¬ |(getBal st.balances st.leftIndex).netBalance| < 1 / 100)
    (h2 : |(getBal st.balances st.rightIndex).netBalance| < 1 / 100) :
    optStep now st = { st with rightIndex := st.rightIndex - 1 } := by
  simp only [optStep]
  rw [if_neg h1, if_pos h2]

theorem optStep_skip3 (now : ℕ) (st : OptState)
    (h1 : ¬ |(getBal st.balances st.leftIndex).netBalance| < 1 / 100)
    (h2 : ¬ |(getBal st.balances st.rightIndex).netBalance| < 1 / 100)
    (h3 : (getBal st.balances st.leftIndex).netBalance ≤ 0) :
    optStep now st = { st with leftIndex := st.leftIndex + 1 } := by
  simp only [optStep]
  rw [if_neg h1, if_neg h2, if_pos h3]

theorem optStep_skip4 (now : ℕ) (st : OptState)
    (h1 : ¬ |(getBal st.balances st.leftIndex).netBalance| < 1 / 100)
    (h2 : ¬ |(getBal st.balances st.rightIndex).netBalance| < 1 / 100)
    (h3 : ¬ (getBal st.balances st.leftIndex).netBalance ≤ 0)
    (h4 : 0 ≤ (getBal st.balances st.rightIndex).netBalance) :
    optStep now st = { st with rightIndex := st.rightIndex - 1 } := by
  simp only [optStep]
  rw [if_neg h1, if_neg h2, if_neg h3, if_pos h4]

theorem optStep_noemit (now : ℕ) (st : OptState)
    (h1 : ¬ |(getBal st.balances st.leftIndex).netBalance| < 1 / 100)
    (h2 : ¬ |(getBal st.balances st.rightIndex).netBalance| < 1 / 100)
    (h3 : ¬ (getBal st.balances st.leftIndex).netBalance ≤ 0)
    (h4 : ¬ 0 ≤ (getBal st.balances st.rightIndex).netBalance)
    (h5 : ¬ 1 / 100 < min (getBal st.balances st.leftIndex).netBalance
      |(getBal st.balances st.rightIndex).netBalance|) :
    optStep now st = st := by
  simp only [optStep]
  rw [if_neg h1, if_neg h2, if_neg h3, if_neg h4, if_neg h5]
  simp only [optAdvanceLeft]
  rw [if_neg h1]
  simp only [optAdvanceRight]
  rw [if_neg h2]

theorem optStep_emit (now : ℕ) (st : OptState)
    (h1 : ¬ |(getBal st.balances st.leftIndex).netBalance| < 1 / 100)
    (h2 : ¬ |(getBal st.balances st.rightIndex).netBalance| < 1 / 100)
    (h3 : ¬ (getBal st.balances st.leftIndex).netBalance ≤ 0)
    (h4 : ¬ 0 ≤ (getBal st.balances st.rightIndex).netBalance)
    (h5 : 1 / 100 < min (getBal st.balances st.leftIndex).netBalance
      |(getBal st.balances st.rightIndex).netBalance|) :
    optStep now st = optAdvanceRight (optAdvanceLeft
      ⟨optNewBalances st, st.leftIndex, st.rightIndex,
        st.settlements ++ [optEmitted now st]⟩) := by
  simp only [optStep]
  rw [if_neg h1, if_neg h2, if_neg h3, if_neg h4, if_pos h5]

/-! ### C1: the settlement loop does not terminate on residuals of exactly one cent -/

theorem sortByNetDescending_stuck :
    sortByNetDescending stuckBalances = stuckBalances := by
  norm_num [sortByNetDescending, insertDescending, stuckBalances]

theorem optStep_stuck (now : ℕ) :
    optStep now ⟨stuckBalances, 0, 1, []⟩ = ⟨stuckBalances, 0, 1, []⟩ := by
  norm_num [optStep, optAdvanceLeft, optAdvanceRight, getBal, stuckBalances, min_def,
    abs_of_pos, abs_of_neg, abs_of_nonneg, abs_of_nonpos]

theorem optimizeSettlements_stuck_unfold (now fuel : ℕ) :
    optimizeSettlements now fuel stuckBalances =
      optimizeLoop now fuel ⟨stuckBalances, 0, 1, []⟩ := by
  have hlen : stuckBalances.length = 2 := rfl
  simp only [optimizeSettlements, sortByNetDescending_stuck, hlen]

/-- C1: the claim states the two-pointer merge loop of
`optimizeSettlements` always terminates because every iteration advances a
pointer or reduces the remaining debt.  The code violates this: on the
balance list `[+0.01, -0.01]` the loop body is the identity (nothing is
emitted because `min 0.01 0.01 > 0.01` is false, and neither pointer
advances because `|±0.01| < 0.01` is false), so the `while` loop runs
forever — however much fuel the embedded loop is given, it never exits
normally. -/
theorem optimizeSettlements_stuck_forever (fuel now : ℕ) :
    optimizeSettlements now fuel stuckBalances = none := by
  rw [optimizeSettlements_stuck_unfold]
  induction fuel with
  | zero => rfl
  | succ m ih =>
    rw [optimizeLoop_step now m _ (by decide), optStep_stuck]
    exact ih

/-! ### C6: equal split on the empty participant list -/

/-- C6 (counterexample): `calculateEqualSplit` does not fail on an empty
participant list — there is no `EmptyParticipantSetError` anywhere in the
code — it returns the normal result `[]` (src/utils/calculations.ts line
8: `if (n === 0) return [];`). -/
theorem equalSplit_empty_counterexample : calculateEqualSplit 100 [] = [] := rfl

/-- C6 (amended): for every total, `calculateEqualSplit` on an empty
participant list returns the empty share list (a normal result, not an
error). -/
theorem equalSplit_empty_nil (totalAmount : ℚ) :
    calculateEqualSplit totalAmount [] = [] := rfl

/-! ### C8: the acceptance boundary of custom and percentage splits -/

/-- C8 (counterexample to the error-message part): the rejection message
of `calculateCustomSplit` is one fixed string — the same for totals 100
and 7 and entry sums 50 and 3 — and contains no digit at all, so it does
not name the two sums as the claim states. -/
theorem customSplit_fixed_message_counterexample :
    calculateCustomSplit 100 [⟨"a", 50⟩] =
      Except.error "Custom split amounts do not match total amount" ∧
    calculateCustomSplit 7 [⟨"b", 3⟩] =
      Except.error "Custom split amounts do not match total amount" ∧
    ("Custom split amounts do not match total amount".data.filter Char.isDigit) = [] := by
  refine ⟨?_, ?_, by decide⟩
  · norm_num [calculateCustomSplit, sumCustom, abs_of_nonneg, abs_of_nonpos]
  · norm_num [calculateCustomSplit, sumCustom, abs_of_nonneg, abs_of_nonpos]

/-- C8 (amended): `calculateCustomSplit` succeeds exactly when the entry
sum is within 0.01 of the total, and otherwise fails with its fixed
mismatch message; `calculatePercentageSplit` succeeds exactly when the
percentages sum to within 0.01 of 100, and otherwise fails with its fixed
message.  (The messages do not contain the sums.) -/
theorem split_rejection_boundary (totalAmount : ℚ) (entries : List CustomAmount)
    (pcts : List PercentageEntry) :
    ((∃ ps, calculateCustomSplit totalAmount entries = Except.ok ps) ↔
      |sumCustom entries - totalAmount| ≤ 1 / 100) ∧
    (1 / 100 < |sumCustom entries - totalAmount| →
      calculateCustomSplit totalAmount entries =
        Except.error "Custom split amounts do not match total amount") ∧
    ((∃ ps, calculatePercentageSplit totalAmount pcts = Except.ok ps) ↔
      |sumPercent pcts - 100| ≤ 1 / 100) ∧
    (1 / 100 < |sumPercent pcts - 100| →
      calculatePercentageSplit totalAmount pcts =
        Except.error "Percentages do not add up to 100%") := by
  refine ⟨?_, ?_, ?_, ?_⟩
  · by_cases h : 1 / 100 < |sumCustom entries - totalAmount|
    · simp only [calculateCustomSplit, if_pos h]
      constructor
      · rintro ⟨ps, hps⟩
        exact absurd hps (by simp)
      · intro hle
        exact absurd h (not_lt.mpr hle)
    · simp only [calculateCustomSplit, if_neg h]
      exact ⟨fun _ => not_lt.mp h, fun _ => ⟨_, rfl⟩⟩
  · intro h
    simp only [calculateCustomSplit, if_pos h]
  · by_cases h : 1 / 100 < |sumPercent pcts - 100|
    · simp only [calculatePercentageSplit, if_pos h]
      constructor
      · rintro ⟨ps, hps⟩
        exact absurd hps (by simp)
      · intro hle
        exact absurd h (not_lt.mpr hle)
    · simp only [calculatePercentageSplit, if_neg h]
      exact ⟨fun _ => not_lt.mp h, fun _ => ⟨_, rfl⟩⟩
  · intro h
    simp only [calculatePercentageSplit, if_pos h]

/-- C8 (witness): a sum differing by exactly 0.01 is accepted, a sum
differing by 50 is rejected with the fixed message. -/
theorem split_rejection_boundary_witness :
    (∃ ps, calculateCustomSplit 100 [⟨"a", 9999 / 100⟩] = Except.ok ps) ∧
    calculateCustomSplit 100 [⟨"a", 50⟩] =
      Except.error "Custom split amounts do not match total amount" :=
  ⟨(split_rejection_boundary 100 [⟨"a", 9999 / 100⟩] []).1.mpr
      (by norm_num [sumCustom, abs_of_nonneg, abs_of_nonpos]),
   (split_rejection_boundary 100 [⟨"a", 50⟩] []).2.1
      (by norm_num [sumCustom, abs_of_nonneg, abs_of_nonpos])⟩

/-! ### C7: no split operation checks for negative amounts -/

/-- C7 (counterexample): all three split operations accept negative
amounts/percentages — there is no `NegativeShareError` anywhere in the
code.  A custom split with a -5 entry succeeds, a percentage split with a
-50% entry succeeds, and an equal split can even *produce* a negative
share itself. -/
theorem split_negative_counterexample :
    calculateCustomSplit 10 [⟨"a", -5⟩, ⟨"b", 15⟩] =
      Except.ok [⟨"a", -5, false⟩, ⟨"b", 15, false⟩] ∧
    calculatePercentageSplit 100 [⟨"a", -50⟩, ⟨"b", 150⟩] =
      Except.ok [⟨"a", -50, false⟩, ⟨"b", 150, false⟩] ∧
    calculateEqualSplit (1 / 50) ["a", "b", "c", "d"] =
      [⟨"a", -1 / 100, false⟩, ⟨"b", 1 / 100, false⟩,
       ⟨"c", 1 / 100, false⟩, ⟨"d", 1 / 100, false⟩] := by
  refine ⟨?_, ?_, ?_⟩
  · norm_num [calculateCustomSplit, sumCustom, abs_of_nonneg, abs_of_nonpos]
  · norm_num [calculatePercentageSplit, sumPercent, round2,
      abs_of_nonneg, abs_of_nonpos]
  · norm_num [calculateEqualSplit, adjustLoop, modifyIdx, sumAmounts, round2,
      abs_of_pos, abs_of_neg, abs_of_nonneg, abs_of_nonpos]

/-- C7 (amended): none of the three split operations performs a sign
check: any custom entries whose sum passes the 0.01 tolerance are returned
exactly as given (negative or not), any percentages summing to 100 within
0.01 are converted to shares (negative or not), and only the separate
`validateExpenseParticipants` guard reports negative amounts (after its
emptiness and sum checks pass). -/
theorem split_no_negative_check (totalAmount : ℚ) (entries : List CustomAmount)
    (pcts : List PercentageEntry) (ps : List ExpenseParticipant) :
    (|sumCustom entries - totalAmount| ≤ 1 / 100 →
      calculateCustomSplit totalAmount entries =
        Except.ok (entries.map fun item => ⟨item.userId, item.amount, false⟩)) ∧
    (|sumPercent pcts - 100| ≤ 1 / 100 →
      calculatePercentageSplit totalAmount pcts =
        Except.ok (pcts.map fun item =>
          ⟨item.userId, round2 (totalAmount * item.percentage / 100), false⟩)) ∧
    (ps ≠ [] → |totalAmount - sumAmounts ps| ≤ 1 / 100 → (∃ p ∈ ps, p.amount < 0) →
      validateExpenseParticipants totalAmount ps =
        ⟨false, some "Participant amounts cannot be negative"⟩) := by
  refine ⟨?_, ?_, ?_⟩
  · intro h
    simp only [calculateCustomSplit, if_neg (not_lt.mpr h)]
  · intro h
    simp only [calculatePercentageSplit, if_neg (not_lt.mpr h)]
  · intro hne hsum hneg
    obtain ⟨p, hp, hplt⟩ := hneg
    have hlen : ¬ ps.length = 0 := by
      simpa [List.length_eq_zero] using hne
    have hfilter : 0 < (ps.filter fun q => q.amount < 0).length := by
      apply List.length_pos.mpr
      intro hnil
      have : p ∈ ps.filter fun q => q.amount < 0 :=
        List.mem_filter.mpr ⟨hp, by simpa using hplt⟩
      rw [hnil] at this
      exact absurd this (List.not_mem_nil p)
    simp only [validateExpenseParticipants, if_neg hlen, if_neg (not_lt.mpr hsum),
      if_pos hfilter]

/-- C7 (witness): a custom split containing a -2 entry is returned as
given, and `validateExpenseParticipants` flags the same shares as
negative. -/
theorem split_no_negative_check_witness :
    calculateCustomSplit 10 [⟨"a", -2⟩, ⟨"b", 12⟩] =
      Except.ok [⟨"a", -2, false⟩, ⟨"b", 12, false⟩] ∧
    validateExpenseParticipants 10 [⟨"a", -2, false⟩, ⟨"b", 12, false⟩] =
      ⟨false, some "Participant amounts cannot be negative"⟩ :=
  ⟨(split_no_negative_check 10 [⟨"a", -2⟩, ⟨"b", 12⟩] [] []).1
      (by norm_num [sumCustom, abs_of_nonneg, abs_of_nonpos]),
   (split_no_negative_check 10 [] [] [⟨"a", -2, false⟩, ⟨"b", 12, false⟩]).2.2
      (by simp)
      (by norm_num [sumAmounts_cons, sumAmounts_nil, abs_of_nonneg, abs_of_nonpos])
      ⟨⟨"a", -2, false⟩, by simp, by norm_num⟩⟩

/-! ### C10: unknown group ids yield the empty balance list -/

/-- C10: when no stored group has the requested id,
`calculateUserBalances` returns `[]` (src/stores/useAppStore.ts line 287:
`if (!group) return [];`). -/
theorem calculateUserBalances_unknown_group (state : AppState) (groupId : String)
    (h : ∀ g ∈ state.groups, g.id ≠ groupId) :
    calculateUserBalances state groupId = [] := by
  have hfind : state.groups.find? (fun g => g.id == groupId) = none := by
    rw [List.find?_eq_none]
    intro g hg
    simpa using h g hg
  simp only [calculateUserBalances, hfind]

/-- C10 (witness): a store holding one group `g1` returns no balances for
the unknown id `nope`. -/
theorem calculateUserBalances_unknown_group_witness :
    calculateUserBalances ⟨[⟨"g1", [⟨"A"⟩]⟩], []⟩ "nope" = [] :=
  calculateUserBalances_unknown_group _ _ (by decide)

/-! ### C9: determinism and the wall-clock dependence of settlements -/

theorem demo_optStep (now : ℕ) :
    optStep now ⟨demoBals, 0, 1, []⟩ =
      ⟨[⟨"A", "g", 0, 0, 0⟩, ⟨"B", "g", 0, 0, 0⟩], 1, 0, [demoSettlement now]⟩ := by
  norm_num [optStep, optEmitted, optNewBalances, optAdvanceLeft, optAdvanceRight,
    getBal, demoBals, demoSettlement, round2, min_def,
    abs_of_pos, abs_of_neg, abs_of_nonneg, abs_of_nonpos]

theorem demo_optimize_eval (now : ℕ) :
    optimizeSettlements now 5 demoBals = some [demoSettlement now] := by
  have h0 : sortByNetDescending demoBals = demoBals := by
    norm_num [sortByNetDescending, insertDescending, demoBals]
  have hlen : demoBals.length = 2 := rfl
  have e1 : optimizeSettlements now 5 demoBals = optimizeLoop now 5 ⟨demoBals, 0, 1, []⟩ := by
    simp only [optimizeSettlements, h0, hlen]
  rw [e1, optimizeLoop_step now 4 _ (by decide), demo_optStep,
    optimizeLoop_exit now 3 _ (by norm_num)]

/-- C9 (counterexample): two invocations of `optimizeSettlements` on the
identical balance list but at clock values 0 and 1 return different
settlement lists — the emitted settlement embeds `Date.now()` in its `id`
and `createdAt` fields. -/
theorem optimize_time_counterexample :
    optimizeSettlements 0 5 demoBals ≠ optimizeSettlements 1 5 demoBals := by
  rw [demo_optimize_eval 0, demo_optimize_eval 1]
  decide

theorem erasedEq_advanceLeft {s t : OptState} (h : ErasedEq s t) :
    ErasedEq (optAdvanceLeft s) (optAdvanceLeft t) := by
  obtain ⟨hb, hl, hr, hs⟩ := h
  simp only [optAdvanceLeft]
  by_cases hc : |(getBal t.balances t.leftIndex).netBalance| < 1 / 100
  · rw [if_pos hc, if_pos (by rw [hb, hl]; exact hc)]
    exact ⟨hb, by rw [hl], hr, hs⟩
  · rw [if_neg hc, if_neg (by rw [hb, hl]; exact hc)]
    exact ⟨hb, hl, hr, hs⟩

theorem erasedEq_advanceRight {s t : OptState} (h : ErasedEq s t) :
    ErasedEq (optAdvanceRight s) (optAdvanceRight t) := by
  obtain ⟨hb, hl, hr, hs⟩ := h
  simp only [optAdvanceRight]
  by_cases hc : |(getBal t.balances t.rightIndex).netBalance| < 1 / 100
  · rw [if_pos hc, if_pos (by rw [hb, hr]; exact hc)]
    exact ⟨hb, hl, by rw [hr], hs⟩
  · rw [if_neg hc, if_neg (by rw [hb, hr]; exact hc)]
    exact ⟨hb, hl, hr, hs⟩

/-- One loop iteration preserves agreement up to time erasure: every
guard reads only the shared balances and pointers, and the emitted
settlement differs only in `id` and `createdAt`. -/
theorem erasedEq_optStep {now₁ now₂ : ℕ} {s t : OptState} (h : ErasedEq s t) :
    ErasedEq (optStep now₁ s) (optStep now₂ t) := by
  obtain ⟨hb, hl, hr, hs⟩ := h
  by_cases h1 : |(getBal t.balances t.leftIndex).netBalance| < 1 / 100
  · rw [optStep_skip1 now₁ s (by rw [hb, hl]; exact h1), optStep_skip1 now₂ t h1]
    exact ⟨hb, by rw [hl], hr, hs⟩
  · have h1s : ¬ |(getBal s.balances s.leftIndex).netBalance| < 1 / 100 := by
      rw [hb, hl]; exact h1
    by_cases h2 : |(getBal t.balances t.rightIndex).netBalance| < 1 / 100
    · rw [optStep_skip2 now₁ s h1s (by rw [hb, hr]; exact h2), optStep_skip2 now₂ t h1 h2]
      exact ⟨hb, hl, by rw [hr], hs⟩
    · have h2s : ¬ |(getBal s.balances s.rightIndex).netBalance| < 1 / 100 := by
        rw [hb, hr]; exact h2
      by_cases h3 : (getBal t.balances t.leftIndex).netBalance ≤ 0
      · rw [optStep_skip3 now₁ s h1s h2s (by rw [hb, hl]; exact h3),
          optStep_skip3 now₂ t h1 h2 h3]
        exact ⟨hb, by rw [hl], hr, hs⟩
      · have h3s : ¬ (getBal s.balances s.leftIndex).netBalance ≤ 0 := by
          rw [hb, hl]; exact h3
        by_cases h4 : 0 ≤ (getBal t.balances t.rightIndex).netBalance
        · rw [optStep_skip4 now₁ s h1s h2s h3s (by rw [hb, hr]; exact h4),
            optStep_skip4 now₂ t h1 h2 h3 h4]
          exact ⟨hb, hl, by rw [hr], hs⟩
        · have h4s : ¬ 0 ≤ (getBal s.balances s.rightIndex).netBalance := by
            rw [hb, hr]; exact h4
          by_cases h5 : 1 / 100 < min (getBal t.balances t.leftIndex).netBalance
              |(getBal t.balances t.rightIndex).netBalance|
          · rw [optStep_emit now₁ s h1s h2s h3s h4s (by rw [hb, hl, hr]; exact h5),
              optStep_emit now₂ t h1 h2 h3 h4 h5]
            apply erasedEq_advanceRight
            apply erasedEq_advanceLeft
            refine ⟨?_, hl, hr, ?_⟩
            · simp only [optNewBalances, hb, hl, hr]
            · simp only [List.map_append, hs]
              simp [eraseTime, optEmitted, hb, hl, hr]
          · rw [optStep_noemit now₁ s h1s h2s h3s h4s (by rw [hb, hl, hr]; exact h5),
              optStep_noemit now₂ t h1 h2 h3 h4 h5]
            exact ⟨hb, hl, hr, hs⟩

theorem optimizeLoop_eraseTime (fuel : ℕ) :
    ∀ (now₁ now₂ : ℕ) (s t : OptState), ErasedEq s t →
      (optimizeLoop now₁ fuel s).map (List.map eraseTime) =
        (optimizeLoop now₂ fuel t).map (List.map eraseTime) := by
  induction fuel with
  | zero => intros; rfl
  | succ m ih =>
    intro now₁ now₂ s t h
    obtain ⟨hb, hl, hr, hs⟩ := h
    by_cases hlt : t.leftIndex < t.rightIndex
    · rw [optimizeLoop_step now₁ m s (by rw [hl, hr]; exact hlt),
        optimizeLoop_step now₂ m t hlt]
      exact ih now₁ now₂ _ _ (erasedEq_optStep ⟨hb, hl, hr, hs⟩)
    · rw [optimizeLoop_exit now₁ m s (by rw [hl, hr]; exact hlt),
        optimizeLoop_exit now₂ m t hlt]
      simpa using hs

/-- C9 (amended): `calculateUserBalances` is a pure function (identical
inputs give identical outputs), and `optimizeSettlements` is deterministic
in every field except the wall-clock derived `id` and `createdAt` of the
emitted settlements: for any two invocation times the results agree after
erasing those two fields. -/
theorem deterministic_up_to_time :
    (∀ (state : AppState) (groupId : String),
      calculateUserBalances state groupId = calculateUserBalances state groupId) ∧
    ∀ (now₁ now₂ fuel : ℕ) (balances : List UserBalance),
      (optimizeSettlements now₁ fuel balances).map (List.map eraseTime) =
        (optimizeSettlements now₂ fuel balances).map (List.map eraseTime) := by
  refine ⟨fun _ _ => rfl, ?_⟩
  intro now₁ now₂ fuel balances
  simp only [optimizeSettlements]
  exact optimizeLoop_eraseTime fuel now₁ now₂ _ _ ⟨rfl, rfl, rfl, rfl⟩

/-! ### List access lemmas for the working array -/

theorem getBal_default : ∀ (bals : List UserBalance) (i : ℕ),
    bals.length ≤ i → getBal bals i = defaultBalance := by
  intro bals
  induction bals with
  | nil => intro i _; cases i <;> rfl
  | cons b bs ih =>
    intro i h
    cases i with
    | zero => simp at h
    | succ j => exact ih j (by simpa using h)

theorem getBal_mem : ∀ (bals : List UserBalance) (i : ℕ),
    i < bals.length → getBal bals i ∈ bals := by
  intro bals
  induction bals with
  | nil => intro i h; simp at h
  | cons b bs ih =>
    intro i h
    cases i with
    | zero => exact List.mem_cons_self _ _
    | succ j => exact List.mem_cons_of_mem _ (ih j (by simpa using h))

theorem getBal_set_eq : ∀ (bals : List UserBalance) (i : ℕ) (v : UserBalance),
    i < bals.length → getBal (bals.set i v) i = v := by
  intro bals
  induction bals with
  | nil => intro i v h; simp at h
  | cons b bs ih =>
    intro i v h
    cases i with
    | zero => rfl
    | succ j => exact ih j v (by simpa using h)

theorem getBal_set_ne : ∀ (bals : List UserBalance) (i j : ℕ) (v : UserBalance),
    i ≠ j → getBal (bals.set i v) j = getBal bals j := by
  intro bals
  induction bals with
  | nil => intro i j v _; rfl
  | cons b bs ih =>
    intro i j v hne
    cases i with
    | zero =>
      cases j with
      | zero => exact absurd rfl hne
      | succ k => rfl
    | succ i2 =>
      cases j with
      | zero => rfl
      | succ k => exact ih i2 k v (fun hh => hne (by rw [hh]))

theorem mem_of_mem_set : ∀ (bals : List UserBalance) (i : ℕ) (v b : UserBalance),
    b ∈ bals.set i v → b ∈ bals ∨ b = v := by
  intro bals
  induction bals with
  | nil => intro i v b h; simp at h
  | cons x xs ih =>
    intro i v b h
    cases i with
    | zero =>
      rcases List.mem_cons.mp h with h | h
      · exact Or.inr h
      · exact Or.inl (List.mem_cons_of_mem _ h)
    | succ j =>
      rcases List.mem_cons.mp h with h | h
      · exact Or.inl (by simp [h])
      · rcases ih j v b h with h | h
        · exact Or.inl (List.mem_cons_of_mem _ h)
        · exact Or.inr h

/-! ### Sorting preserves length and membership -/

theorem length_insertDescending (x : UserBalance) :
    ∀ l : List UserBalance, (insertDescending x l).length = l.length + 1 := by
  intro l
  induction l with
  | nil => rfl
  | cons y ys ih =>
    simp only [insertDescending]
    by_cases h : y.netBalance < x.netBalance
    · rw [if_pos h]; rfl
    · rw [if_neg h]
      simp only [List.length_cons, ih]

theorem length_sortByNetDescending (l : List UserBalance) :
    (sortByNetDescending l).length = l.length := by
  suffices h : ∀ (l acc : List UserBalance),
      (l.foldl (fun acc x => insertDescending x acc) acc).length = acc.length + l.length by
    simpa using h l []
  intro l
  induction l with
  | nil => intro acc; simp
  | cons x xs ih =>
    intro acc
    rw [List.foldl_cons, ih, length_insertDescending, List.length_cons]
    omega

theorem mem_insertDescending {b x : UserBalance} :
    ∀ {l : List UserBalance}, b ∈ insertDescending x l → b = x ∨ b ∈ l := by
  intro l
  induction l with
  | nil =>
    intro h
    simp only [insertDescending] at h
    exact Or.inl (List.mem_singleton.mp h)
  | cons y ys ih =>
    intro h
    simp only [insertDescending] at h
    by_cases hc : y.netBalance < x.netBalance
    · rw [if_pos hc] at h
      rcases List.mem_cons.mp h with h | h
      · exact Or.inl h
      · exact Or.inr h
    · rw [if_neg hc] at h
      rcases List.mem_cons.mp h with h | h
      · exact Or.inr (by simp [h])
      · rcases ih h with h | h
        · exact Or.inl h
        · exact Or.inr (List.mem_cons_of_mem _ h)

theorem mem_sortByNetDescending {b : UserBalance} {l : List UserBalance}
    (h : b ∈ sortByNetDescending l) : b ∈ l := by
  suffices hgen : ∀ (l acc : List UserBalance),
      b ∈ l.foldl (fun acc x => insertDescending x acc) acc → b ∈ acc ∨ b ∈ l by
    rcases hgen l [] h with h2 | h2
    · simp at h2
    · exact h2
  intro l
  induction l with
  | nil => intro acc hh; exact Or.inl hh
  | cons x xs ih =>
    intro acc hh
    rw [List.foldl_cons] at hh
    rcases ih (insertDescending x acc) hh with h2 | h2
    · rcases mem_insertDescending h2 with h3 | h3
      · exact Or.inr (by simp [h3])
      · exact Or.inl h3
    · exact Or.inr (List.mem_cons_of_mem _ h2)

/-! ### Component lemmas for the trailing pointer advances -/

theorem advanceLeft_balances (st : OptState) : (optAdvanceLeft st).balances = st.balances := by
  simp only [optAdvanceLeft]
  split_ifs <;> rfl

theorem advanceLeft_rightIndex (st : OptState) :
    (optAdvanceLeft st).rightIndex = st.rightIndex := by
  simp only [optAdvanceLeft]
  split_ifs <;> rfl

theorem advanceLeft_settlements (st : OptState) :
    (optAdvanceLeft st).settlements = st.settlements := by
  simp only [optAdvanceLeft]
  split_ifs <;> rfl

theorem advanceLeft_leftIndex_bounds (st : OptState) :
    st.leftIndex ≤ (optAdvanceLeft st).leftIndex ∧
      (optAdvanceLeft st).leftIndex ≤ st.leftIndex + 1 := by
  simp only [optAdvanceLeft]
  split_ifs
  · exact ⟨Nat.le_succ _, le_refl _⟩
  · exact ⟨le_refl _, Nat.le_succ _⟩

theorem advanceLeft_fires (st : OptState)
    (h : |(getBal st.balances st.leftIndex).netBalance| < 1 / 100) :
    (optAdvanceLeft st).leftIndex = st.leftIndex + 1 := by
  simp only [optAdvanceLeft]
  rw [if_pos h]

theorem advanceRight_balances (st : OptState) :
    (optAdvanceRight st).balances = st.balances := by
  simp only [optAdvanceRight]
  split_ifs <;> rfl

theorem advanceRight_leftIndex (st : OptState) :
    (optAdvanceRight st).leftIndex = st.leftIndex := by
  simp only [optAdvanceRight]
  split_ifs <;> rfl

theorem advanceRight_settlements (st : OptState) :
    (optAdvanceRight st).settlements = st.settlements := by
  simp only [optAdvanceRight]
  split_ifs <;> rfl

theorem advanceRight_rightIndex_bounds (st : OptState) :
    st.rightIndex - 1 ≤ (optAdvanceRight st).rightIndex ∧
      (optAdvanceRight st).rightIndex ≤ st.rightIndex := by
  simp only [optAdvanceRight]
  split_ifs
  · exact ⟨le_refl _, Nat.sub_le _ _⟩
  · exact ⟨Nat.sub_le _ _, le_refl _⟩

theorem advanceRight_fires (st : OptState)
    (h : |(getBal st.balances st.rightIndex).netBalance| < 1 / 100) :
    (optAdvanceRight st).rightIndex = st.rightIndex - 1 := by
  simp only [optAdvanceRight]
  rw [if_pos h]

/-! ### C5: each loop iteration pays for its settlement with pointer progress -/

theorem optNewBalances_eq (st : OptState) :
    optNewBalances st = (st.balances.set st.leftIndex
      { getBal st.balances st.leftIndex with
        netBalance := (getBal st.balances st.leftIndex).netBalance -
          min (getBal st.balances st.leftIndex).netBalance
            |(getBal st.balances st.rightIndex).netBalance| }).set
      st.rightIndex
      { getBal st.balances st.rightIndex with
        netBalance := (getBal st.balances st.rightIndex).netBalance +
          min (getBal st.balances st.leftIndex).netBalance
            |(getBal st.balances st.rightIndex).netBalance| } := rfl

/-- In the emission branch both pointers address real array cells: an
out-of-range read would give the zero default balance, which the sign
guards have already excluded. -/
theorem emit_indexes_in_range (st : OptState)
    (h3 : ¬ (getBal st.balances st.leftIndex).netBalance ≤ 0)
    (h4 : ¬ 0 ≤ (getBal st.balances st.rightIndex).netBalance) :
    st.leftIndex < st.balances.length ∧ st.rightIndex < st.balances.length := by
  constructor
  · by_contra hc
    rw [getBal_default st.balances st.leftIndex (Nat.le_of_not_lt hc)] at h3
    exact h3 (le_refl 0)
  · by_contra hc
    rw [getBal_default st.balances st.rightIndex (Nat.le_of_not_lt hc)] at h4
    exact h4 (le_refl 0)

/-- The net balance of the updated lender cell. -/
theorem getBal_newBalances_left (st : OptState)
    (hl_len : st.leftIndex < st.balances.length) (hne : st.rightIndex ≠ st.leftIndex) :
    getBal (optNewBalances st) st.leftIndex =
      { getBal st.balances st.leftIndex with
        netBalance := (getBal st.balances st.leftIndex).netBalance -
          min (getBal st.balances st.leftIndex).netBalance
            |(getBal st.balances st.rightIndex).netBalance| } := by
  rw [optNewBalances_eq, getBal_set_ne _ _ _ _ hne, getBal_set_eq _ _ _ hl_len]

/-- The net balance of the updated debtor cell. -/
theorem getBal_newBalances_right (st : OptState)
    (hr_len : st.rightIndex < st.balances.length) :
    getBal (optNewBalances st) st.rightIndex =
      { getBal st.balances st.rightIndex with
        netBalance := (getBal st.balances st.rightIndex).netBalance +
          min (getBal st.balances st.leftIndex).netBalance
            |(getBal st.balances st.rightIndex).netBalance| } := by
  rw [optNewBalances_eq]
  exact getBal_set_eq _ _ _ (by rw [List.length_set]; exact hr_len)

/-- One loop iteration never increases `settlements + remaining gap`: a
skip advances a pointer without emitting, and an emission zeroes at least
one of the two sides, which advances the corresponding pointer. -/
theorem optStep_measure (now : ℕ) (st : OptState) (h : st.leftIndex < st.rightIndex) :
    (optStep now st).settlements.length +
        ((optStep now st).rightIndex - (optStep now st).leftIndex) ≤
      st.settlements.length + (st.rightIndex - st.leftIndex) := by
  by_cases h1 : |(getBal st.balances st.leftIndex).netBalance| < 1 / 100
  · rw [optStep_skip1 now st h1]
    show st.settlements.length + (st.rightIndex - (st.leftIndex + 1)) ≤ _
    omega
  by_cases h2 : |(getBal st.balances st.rightIndex).netBalance| < 1 / 100
  · rw [optStep_skip2 now st h1 h2]
    show st.settlements.length + (st.rightIndex - 1 - st.leftIndex) ≤ _
    omega
  by_cases h3 : (getBal st.balances st.leftIndex).netBalance ≤ 0
  · rw [optStep_skip3 now st h1 h2 h3]
    show st.settlements.length + (st.rightIndex - (st.leftIndex + 1)) ≤ _
    omega
  by_cases h4 : 0 ≤ (getBal st.balances st.rightIndex).netBalance
  · rw [optStep_skip4 now st h1 h2 h3 h4]
    show st.settlements.length + (st.rightIndex - 1 - st.leftIndex) ≤ _
    omega
  by_cases h5 : 1 / 100 < min (getBal st.balances st.leftIndex).netBalance
      |(getBal st.balances st.rightIndex).netBalance|
  case neg =>
    rw [optStep_noemit now st h1 h2 h3 h4 h5]
  case pos =>
    rw [optStep_emit now st h1 h2 h3 h4 h5]
    obtain ⟨hl_len, hr_len⟩ := emit_indexes_in_range st h3 h4
    have hne : st.rightIndex ≠ st.leftIndex := (Nat.ne_of_lt h).symm
    set S : OptState :=
      ⟨optNewBalances st, st.leftIndex, st.rightIndex,
        st.settlements ++ [optEmitted now st]⟩ with hS
    -- settlement count grows by exactly one
    have ha : (optAdvanceRight (optAdvanceLeft S)).settlements.length =
        st.settlements.length + 1 := by
      rw [advanceRight_settlements, advanceLeft_settlements, hS]
      simp
    -- pointer component facts
    have hb : (optAdvanceRight (optAdvanceLeft S)).leftIndex = (optAdvanceLeft S).leftIndex :=
      advanceRight_leftIndex _
    have hc1 : st.leftIndex ≤ (optAdvanceLeft S).leftIndex :=
      (advanceLeft_leftIndex_bounds S).1
    have hc2 : (optAdvanceLeft S).leftIndex ≤ st.leftIndex + 1 :=
      (advanceLeft_leftIndex_bounds S).2
    have hd1 : (optAdvanceLeft S).rightIndex - 1 ≤
        (optAdvanceRight (optAdvanceLeft S)).rightIndex :=
      (advanceRight_rightIndex_bounds _).1
    have hd2 : (optAdvanceRight (optAdvanceLeft S)).rightIndex ≤ (optAdvanceLeft S).rightIndex :=
      (advanceRight_rightIndex_bounds _).2
    have he : (optAdvanceLeft S).rightIndex = st.rightIndex := advanceLeft_rightIndex S
    rcases min_choice (getBal st.balances st.leftIndex).netBalance
        |(getBal st.balances st.rightIndex).netBalance| with hmin | hmin
    · -- the lender is settled exactly: the left pointer advances
      have hfireL : (optAdvanceLeft S).leftIndex = st.leftIndex + 1 := by
        apply advanceLeft_fires
        show |(getBal (optNewBalances st) st.leftIndex).netBalance| < 1 / 100
        rw [getBal_newBalances_left st hl_len hne]
        show abs ((getBal st.balances st.leftIndex).netBalance -
          min (getBal st.balances st.leftIndex).netBalance
            (abs (getBal st.balances st.rightIndex).netBalance)) < 1 / 100
        rw [hmin, sub_self, abs_zero]
        norm_num
      omega
    · -- the debtor is settled exactly: the right pointer advances
      have hfireR : (optAdvanceRight (optAdvanceLeft S)).rightIndex =
          (optAdvanceLeft S).rightIndex - 1 := by
        apply advanceRight_fires
        rw [advanceLeft_balances, advanceLeft_rightIndex]
        show |(getBal (optNewBalances st) st.rightIndex).netBalance| < 1 / 100
        rw [getBal_newBalances_right st hr_len]
        show abs ((getBal st.balances st.rightIndex).netBalance +
          min (getBal st.balances st.leftIndex).netBalance
            (abs (getBal st.balances st.rightIndex).netBalance)) < 1 / 100
        rw [hmin]
        have hneg : (getBal st.balances st.rightIndex).netBalance < 0 := lt_of_not_ge h4
        have hz : (getBal st.balances st.rightIndex).netBalance +
            |(getBal st.balances st.rightIndex).netBalance| = 0 := by
          rw [abs_of_neg hneg]
          ring
        rw [hz, abs_zero]
        norm_num
      omega

/-- A terminating run of the settlement loop emits at most
`settlements-so-far + (rightIndex - leftIndex)` settlements. -/
theorem optimizeLoop_length_le (fuel : ℕ) :
    ∀ (now : ℕ) (st : OptState) (s : List Settlement),
      optimizeLoop now fuel st = some s →
      s.length ≤ st.settlements.length + (st.rightIndex - st.leftIndex) := by
  induction fuel with
  | zero => intro now st s h; exact absurd h (by simp [optimizeLoop])
  | succ m ih =>
    intro now st s h
    by_cases hlt : st.leftIndex < st.rightIndex
    · rw [optimizeLoop_step now m st hlt] at h
      have hb := ih now _ s h
      have hm := optStep_measure now st hlt
      omega
    · rw [optimizeLoop_exit now m st hlt] at h
      have hs : st.settlements = s := Option.some.inj h
      have hs2 : st.settlements.length = s.length := by rw [hs]
      omega

/-- C5: whenever `optimizeSettlements` terminates on a list of `n`
balances it returns at most `n - 1` settlements: the loop starts with
pointer gap `n - 1`, every emission advances a pointer, and every
iteration that does not emit also advances a pointer. -/
theorem optimizeSettlements_count_le (now fuel : ℕ) (balances : List UserBalance)
    (s : List Settlement) (h : optimizeSettlements now fuel balances = some s) :
    s.length ≤ balances.length - 1 := by
  have h2 : s.length ≤ ([] : List Settlement).length +
      ((sortByNetDescending balances).length - 1 - 0) :=
    optimizeLoop_length_le fuel now
      ⟨sortByNetDescending balances, 0, (sortByNetDescending balances).length - 1, []⟩ s h
  have h3 : (sortByNetDescending balances).length = balances.length :=
    length_sortByNetDescending balances
  have h4 : ([] : List Settlement).length = 0 := rfl
  omega

/-- C5 (witness): the two-balance demonstration run emits one settlement,
and `1 ≤ 2 - 1`. -/
theorem optimizeSettlements_count_le_witness :
    ([demoSettlement 7] : List Settlement).length ≤ demoBals.length - 1 :=
  optimizeSettlements_count_le 7 5 demoBals [demoSettlement 7] (demo_optimize_eval 7)

/-! ### C4: settlement volume versus positive balances -/

theorem posNetSum_nil : posNetSum [] = 0 := rfl

theorem posNetSum_cons (b : UserBalance) (bs : List UserBalance) :
    posNetSum (b :: bs) = max b.netBalance 0 + posNetSum bs := by
  simp [posNetSum]

theorem posNetSum_nonneg (l : List UserBalance) : 0 ≤ posNetSum l := by
  induction l with
  | nil => exact le_refl 0
  | cons b bs ih =>
    rw [posNetSum_cons]
    have := le_max_right b.netBalance 0
    linarith

theorem posNetSum_set : ∀ (l : List UserBalance) (i : ℕ) (v : UserBalance),
    i < l.length →
    posNetSum (l.set i v) =
      posNetSum l - max (getBal l i).netBalance 0 + max v.netBalance 0 := by
  intro l
  induction l with
  | nil => intro i v h; simp at h
  | cons b bs ih =>
    intro i v h
    cases i with
    | zero =>
      show posNetSum (v :: bs) = _
      rw [posNetSum_cons, posNetSum_cons]
      have hg : getBal (b :: bs) 0 = b := rfl
      rw [hg]
      ring
    | succ j =>
      show posNetSum (b :: bs.set j v) = _
      rw [posNetSum_cons, posNetSum_cons, ih j v (by simpa using h)]
      have hg : getBal (b :: bs) (j + 1) = getBal bs j := rfl
      rw [hg]
      ring

theorem posNetSum_insertDescending (x : UserBalance) :
    ∀ l : List UserBalance,
      posNetSum (insertDescending x l) = max x.netBalance 0 + posNetSum l := by
  intro l
  induction l with
  | nil => simp [insertDescending, posNetSum]
  | cons y ys ih =>
    simp only [insertDescending]
    by_cases h : y.netBalance < x.netBalance
    · rw [if_pos h, posNetSum_cons, posNetSum_cons]
    · rw [if_neg h, posNetSum_cons, ih, posNetSum_cons]
      ring

theorem posNetSum_sortByNetDescending (l : List UserBalance) :
    posNetSum (sortByNetDescending l) = posNetSum l := by
  suffices h : ∀ (l acc : List UserBalance),
      posNetSum (l.foldl (fun acc x => insertDescending x acc) acc) =
        posNetSum acc + posNetSum l by
    have h2 := h l []
    rw [posNetSum_nil] at h2
    simpa [sortByNetDescending] using h2
  intro l
  induction l with
  | nil => intro acc; simp [posNetSum_nil]
  | cons x xs ih =>
    intro acc
    rw [List.foldl_cons, ih, posNetSum_insertDescending, posNetSum_cons]
    ring

theorem sumSettleAmounts_append (s t : List Settlement) :
    sumSettleAmounts (s ++ t) = sumSettleAmounts s + sumSettleAmounts t := by
  simp [sumSettleAmounts]

/-- The positive residue of the working array drops by exactly the
(unrounded) settlement amount when the emission branch updates the lender
and debtor cells. -/
theorem posNetSum_optNewBalances (st : OptState)
    (hl_len : st.leftIndex < st.balances.length)
    (hr_len : st.rightIndex < st.balances.length)
    (hlr : st.leftIndex ≠ st.rightIndex)
    (h3 : ¬ (getBal st.balances st.leftIndex).netBalance ≤ 0)
    (h4 : ¬ 0 ≤ (getBal st.balances st.rightIndex).netBalance) :
    posNetSum (optNewBalances st) = posNetSum st.balances -
      min (getBal st.balances st.leftIndex).netBalance
        |(getBal st.balances st.rightIndex).netBalance| := by
  rw [optNewBalances_eq,
    posNetSum_set _ _ _ (by rw [List.length_set]; exact hr_len),
    getBal_set_ne _ _ _ _ hlr,
    posNetSum_set _ _ _ hl_len]
  have hl_pos : 0 < (getBal st.balances st.leftIndex).netBalance := lt_of_not_ge h3
  have hr_neg : (getBal st.balances st.rightIndex).netBalance < 0 := lt_of_not_ge h4
  have hm1 : max (getBal st.balances st.leftIndex).netBalance 0 =
      (getBal st.balances st.leftIndex).netBalance := max_eq_left (le_of_lt hl_pos)
  have hm2 : max ({ getBal st.balances st.leftIndex with
      netBalance := (getBal st.balances st.leftIndex).netBalance -
        min (getBal st.balances st.leftIndex).netBalance
          |(getBal st.balances st.rightIndex).netBalance| }).netBalance 0 =
      (getBal st.balances st.leftIndex).netBalance -
        min (getBal st.balances st.leftIndex).netBalance
          |(getBal st.balances st.rightIndex).netBalance| :=
    max_eq_left (sub_nonneg.mpr (min_le_left _ _))
  have hm3 : max (getBal st.balances st.rightIndex).netBalance 0 = 0 :=
    max_eq_right (le_of_lt hr_neg)
  have hm4 : max ({ getBal st.balances st.rightIndex with
      netBalance := (getBal st.balances st.rightIndex).netBalance +
        min (getBal st.balances st.leftIndex).netBalance
          |(getBal st.balances st.rightIndex).netBalance| }).netBalance 0 = 0 := by
    apply max_eq_right
    have h5 := min_le_right (getBal st.balances st.leftIndex).netBalance
      |(getBal st.balances st.rightIndex).netBalance|
    have h6 : |(getBal st.balances st.rightIndex).netBalance| =
        -(getBal st.balances st.rightIndex).netBalance := abs_of_neg hr_neg
    show (getBal st.balances st.rightIndex).netBalance +
      min (getBal st.balances st.leftIndex).netBalance
        |(getBal st.balances st.rightIndex).netBalance| ≤ 0
    rw [h6] at h5 ⊢
    linarith
  rw [hm1, hm2, hm3, hm4]
  ring

/-- One loop iteration preserves cent-multiple balances and never
increases `settled so far + positive residue`: for cent inputs the
emitted (rounded) amount equals the unrounded amount subtracted from the
lender and added to the debtor, which moves exactly that much out of the
positive residue. -/
theorem optStep_conservation (now : ℕ) (st : OptState)
    (h : st.leftIndex < st.rightIndex)
    (hcent : ∀ b ∈ st.balances, isCent b.netBalance) :
    (∀ b ∈ (optStep now st).balances, isCent b.netBalance) ∧
    sumSettleAmounts (optStep now st).settlements + posNetSum (optStep now st).balances ≤
      sumSettleAmounts st.settlements + posNetSum st.balances := by
  by_cases h1 : |(getBal st.balances st.leftIndex).netBalance| < 1 / 100
  · rw [optStep_skip1 now st h1]
    exact ⟨hcent, le_refl _⟩
  by_cases h2 : |(getBal st.balances st.rightIndex).netBalance| < 1 / 100
  · rw [optStep_skip2 now st h1 h2]
    exact ⟨hcent, le_refl _⟩
  by_cases h3 : (getBal st.balances st.leftIndex).netBalance ≤ 0
  · rw [optStep_skip3 now st h1 h2 h3]
    exact ⟨hcent, le_refl _⟩
  by_cases h4 : 0 ≤ (getBal st.balances st.rightIndex).netBalance
  · rw [optStep_skip4 now st h1 h2 h3 h4]
    exact ⟨hcent, le_refl _⟩
  by_cases h5 : 1 / 100 < min (getBal st.balances st.leftIndex).netBalance
      |(getBal st.balances st.rightIndex).netBalance|
  case neg =>
    rw [optStep_noemit now st h1 h2 h3 h4 h5]
    exact ⟨hcent, le_refl _⟩
  case pos =>
    rw [optStep_emit now st h1 h2 h3 h4 h5]
    obtain ⟨hl_len, hr_len⟩ := emit_indexes_in_range st h3 h4
    have hlender_cent : isCent (getBal st.balances st.leftIndex).netBalance :=
      hcent _ (getBal_mem _ _ hl_len)
    have hdebtor_cent : isCent (getBal st.balances st.rightIndex).netBalance :=
      hcent _ (getBal_mem _ _ hr_len)
    have hamt_cent : isCent (min (getBal st.balances st.leftIndex).netBalance
        |(getBal st.balances st.rightIndex).netBalance|) :=
      isCent_min hlender_cent (isCent_abs hdebtor_cent)
    have hFb : (optAdvanceRight (optAdvanceLeft
        ⟨optNewBalances st, st.leftIndex, st.rightIndex,
          st.settlements ++ [optEmitted now st]⟩)).balances = optNewBalances st := by
      rw [advanceRight_balances, advanceLeft_balances]
    have hFs : (optAdvanceRight (optAdvanceLeft
        ⟨optNewBalances st, st.leftIndex, st.rightIndex,
          st.settlements ++ [optEmitted now st]⟩)).settlements =
        st.settlements ++ [optEmitted now st] := by
      rw [advanceRight_settlements, advanceLeft_settlements]
    rw [hFb, hFs]
    constructor
    · intro b hb
      rw [optNewBalances_eq] at hb
      rcases mem_of_mem_set _ _ _ _ hb with hb2 | hb2
      · rcases mem_of_mem_set _ _ _ _ hb2 with hb3 | hb3
        · exact hcent b hb3
        · rw [hb3]
          exact isCent_sub hlender_cent hamt_cent
      · rw [hb2]
        exact isCent_add hdebtor_cent hamt_cent
    · have hsingle : sumSettleAmounts [optEmitted now st] =
          round2 (min (getBal st.balances st.leftIndex).netBalance
            |(getBal st.balances st.rightIndex).netBalance|) := by
        simp [sumSettleAmounts, optEmitted]
      rw [sumSettleAmounts_append, hsingle, round2_eq_self hamt_cent,
        posNetSum_optNewBalances st hl_len hr_len (Nat.ne_of_lt h) h3 h4]
      linarith

/-- A terminating run of the settlement loop on cent-multiple balances
emits at most `already settled + positive residue` of volume. -/
theorem optimizeLoop_conservation (fuel : ℕ) :
    ∀ (now : ℕ) (st : OptState) (s : List Settlement),
      (∀ b ∈ st.balances, isCent b.netBalance) →
      optimizeLoop now fuel st = some s →
      sumSettleAmounts s ≤ sumSettleAmounts st.settlements + posNetSum st.balances := by
  induction fuel with
  | zero => intro now st s hcent h; exact absurd h (by simp [optimizeLoop])
  | succ m ih =>
    intro now st s hcent h
    by_cases hlt : st.leftIndex < st.rightIndex
    · rw [optimizeLoop_step now m st hlt] at h
      obtain ⟨hcent2, hle⟩ := optStep_conservation now st hlt hcent
      have hb := ih now _ s hcent2 h
      linarith
    · rw [optimizeLoop_exit now m st hlt] at h
      have hs : st.settlements = s := Option.some.inj h
      have := posNetSum_nonneg st.balances
      rw [← hs]
      linarith

/-- The settlement loop returns the empty list when every balance is
strictly below one cent in absolute value: each iteration takes the first
skip guard and advances the left pointer. -/
theorem optimizeLoop_allSmall (fuel : ℕ) :
    ∀ (now : ℕ) (st : OptState),
      (∀ b ∈ st.balances, |b.netBalance| < 1 / 100) →
      st.settlements = [] →
      st.rightIndex - st.leftIndex < fuel →
      optimizeLoop now fuel st = some [] := by
  induction fuel with
  | zero => intro now st _ _ hgap; exact absurd hgap (Nat.not_lt_zero _)
  | succ m ih =>
    intro now st hsmall hacc hgap
    by_cases hlt : st.leftIndex < st.rightIndex
    · rw [optimizeLoop_step now m st hlt]
      have hcond : |(getBal st.balances st.leftIndex).netBalance| < 1 / 100 := by
        by_cases hl : st.leftIndex < st.balances.length
        · exact hsmall _ (getBal_mem _ _ hl)
        · rw [getBal_default _ _ (Nat.le_of_not_lt hl)]
          norm_num [defaultBalance]
      rw [optStep_skip1 now st hcond]
      apply ih now
      · exact fun b hb => hsmall b hb
      · exact hacc
      · show st.rightIndex - (st.leftIndex + 1) < m
        omega
    · rw [optimizeLoop_exit now m st hlt, hacc]

/-- C4 (amended): on balances that are exact cent multiples, whenever
`optimizeSettlements` terminates the settled volume is at most the sum of
the positive net balances (it can be strictly less — see the
counterexample — so the claimed equality does not hold); and when every
balance is strictly within 0.01 of zero the result is the empty list. -/
theorem optimizeSettlements_conservation :
    (∀ (now fuel : ℕ) (balances : List UserBalance) (s : List Settlement),
      (∀ b ∈ balances, isCent b.netBalance) →
      optimizeSettlements now fuel balances = some s →
      sumSettleAmounts s ≤ posNetSum balances) ∧
    ∀ (now fuel : ℕ) (balances : List UserBalance),
      (∀ b ∈ balances, |b.netBalance| < 1 / 100) → balances.length < fuel →
      optimizeSettlements now fuel balances = some [] := by
  constructor
  · intro now fuel balances s hcent h
    have h2 : sumSettleAmounts s ≤ sumSettleAmounts ([] : List Settlement) +
        posNetSum (sortByNetDescending balances) :=
      optimizeLoop_conservation fuel now
        ⟨sortByNetDescending balances, 0, (sortByNetDescending balances).length - 1, []⟩ s
        (fun b hb => hcent b (mem_sortByNetDescending hb)) h
    rw [posNetSum_sortByNetDescending] at h2
    have h3 : sumSettleAmounts ([] : List Settlement) = 0 := rfl
    linarith
  · intro now fuel balances hsmall hlen
    apply optimizeLoop_allSmall
    · exact fun b hb => hsmall b (mem_sortByNetDescending hb)
    · rfl
    · show (sortByNetDescending balances).length - 1 - 0 < fuel
      rw [length_sortByNetDescending]
      omega

/-- C4 (counterexample): a single creditor balance of +1 produces no
settlements at all (the loop never runs because `left < right` fails
immediately), so the settled volume 0 is not equal to the positive
balance sum 1. -/
theorem settlement_conservation_counterexample :
    optimizeSettlements 0 1 soloBalances = some [] ∧
    sumSettleAmounts [] = 0 ∧ posNetSum soloBalances = 1 := by
  refine ⟨?_, rfl, ?_⟩
  · have h0 : sortByNetDescending soloBalances = soloBalances := by
      norm_num [sortByNetDescending, insertDescending, soloBalances]
    have hlen : soloBalances.length = 1 := rfl
    simp only [optimizeSettlements, h0, hlen]
    rw [optimizeLoop_exit 0 0 _ (by norm_num)]
  · norm_num [posNetSum, soloBalances]

/-- C4 (witness): the demonstration run settles exactly the positive
volume 100 ≤ 100, and a single sub-cent balance yields the empty list. -/
theorem optimizeSettlements_conservation_witness :
    sumSettleAmounts [demoSettlement 7] ≤ posNetSum demoBals ∧
    optimizeSettlements 0 2 [⟨"a", "g", 0, 0, 1 / 200⟩] = some [] :=
  ⟨optimizeSettlements_conservation.1 7 5 demoBals [demoSettlement 7]
      (by
        intro b hb
        simp only [demoBals, List.mem_cons, List.not_mem_nil, or_false] at hb
        rcases hb with rfl | rfl
        · exact ⟨10000, by norm_num⟩
        · exact ⟨-10000, by norm_num⟩)
      (demo_optimize_eval 7),
   optimizeSettlements_conservation.2 0 2 [⟨"a", "g", 0, 0, 1 / 200⟩]
      (by
        intro b hb
        simp only [List.mem_singleton] at hb
        rw [hb]
        norm_num [abs_of_nonneg])
      (by norm_num)⟩

/-! ### C2: balance map bookkeeping -/

theorem mapUpdate_not_mem (k : String) (f : UserBalance → UserBalance) :
    ∀ m : List (String × UserBalance), k ∉ mapKeys m → mapUpdate k f m = m := by
  intro m
  induction m with
  | nil => intro _; rfl
  | cons e m ih =>
    intro h
    have h1 : e.1 ≠ k := by
      intro hc
      exact h (by simp [mapKeys, hc])
    have h2 : k ∉ mapKeys m := by
      intro hc
      exact h (by simp [mapKeys] at hc ⊢; exact Or.inr hc)
    simp only [mapUpdate, List.map_cons, if_neg h1]
    have ih2 := ih h2
    simp only [mapUpdate] at ih2
    rw [ih2]

theorem mapKeys_mapUpdate (k : String) (f : UserBalance → UserBalance) :
    ∀ m : List (String × UserBalance), mapKeys (mapUpdate k f m) = mapKeys m := by
  intro m
  induction m with
  | nil => rfl
  | cons e m ih =>
    by_cases h : e.1 = k
    · simp only [mapUpdate, List.map_cons, if_pos h, mapKeys] at *
      rw [ih]
    · simp only [mapUpdate, List.map_cons, if_neg h, mapKeys] at *
      rw [ih]

theorem mapKeys_applyParticipant (m : List (String × UserBalance))
    (p : ExpenseParticipant) : mapKeys (applyParticipant m p) = mapKeys m := by
  simp only [applyParticipant]
  split_ifs
  · rfl
  · exact mapKeys_mapUpdate _ _ m

theorem mapKeys_foldParticipants :
    ∀ (ps : List ExpenseParticipant) (m : List (String × UserBalance)),
      mapKeys (ps.foldl applyParticipant m) = mapKeys m := by
  intro ps
  induction ps with
  | nil => intro m; rfl
  | cons p ps ih =>
    intro m
    rw [List.foldl_cons, ih, mapKeys_applyParticipant]

theorem mapKeys_applyExpense (m : List (String × UserBalance)) (e : Expense) :
    mapKeys (applyExpense m e) = mapKeys m := by
  simp only [applyExpense]
  rw [mapKeys_foldParticipants, mapKeys_mapUpdate]

theorem mem_mapKeys_mapSet (a k : String) (v : UserBalance) :
    ∀ m : List (String × UserBalance),
      a ∈ mapKeys (mapSet k v m) ↔ a = k ∨ a ∈ mapKeys m := by
  intro m
  induction m with
  | nil => simp [mapSet, mapKeys]
  | cons e m ih =>
    by_cases h : e.1 = k
    · simp only [mapSet, if_pos h, mapKeys, List.map_cons, List.mem_cons]
      constructor
      · rintro (h2 | h2)
        · exact Or.inl (by rw [h2, h])
        · exact Or.inr (Or.inr h2)
      · rintro (h2 | h2 | h2)
        · exact Or.inl (by rw [h2, h])
        · exact Or.inl h2
        · exact Or.inr h2
    · simp only [mapSet, if_neg h, mapKeys, List.map_cons, List.mem_cons] at ih ⊢
      rw [ih]
      constructor
      · rintro (h2 | h2 | h2)
        · exact Or.inr (Or.inl h2)
        · exact Or.inl h2
        · exact Or.inr (Or.inr h2)
      · rintro (h2 | h2 | h2)
        · exact Or.inr (Or.inl h2)
        · exact Or.inl h2
        · exact Or.inr (Or.inr h2)

theorem nodup_mapKeys_mapSet (k : String) (v : UserBalance) :
    ∀ m : List (String × UserBalance),
      (mapKeys m).Nodup → (mapKeys (mapSet k v m)).Nodup := by
  intro m
  induction m with
  | nil => intro _; simp [mapSet, mapKeys]
  | cons e m ih =>
    intro h
    rw [mapKeys, List.map_cons, List.nodup_cons] at h
    by_cases hk : e.1 = k
    · simp only [mapSet, if_pos hk, mapKeys, List.map_cons, List.nodup_cons]
      exact ⟨h.1, h.2⟩
    · simp only [mapSet, if_neg hk, mapKeys, List.map_cons, List.nodup_cons]
      constructor
      · intro hc
        rcases (mem_mapKeys_mapSet e.1 k v m).mp hc with hc | hc
        · exact hk hc
        · exact h.1 hc
      · exact ih h.2

theorem initBalanceMap_fold_keys (groupId : String) :
    ∀ (members : List User) (m : List (String × UserBalance)),
      ((mapKeys m).Nodup →
        (mapKeys (members.foldl
          (fun m member => mapSet member.id (zeroBalance groupId member.id) m) m)).Nodup) ∧
      ∀ a, a ∈ mapKeys (members.foldl
          (fun m member => mapSet member.id (zeroBalance groupId member.id) m) m) ↔
        a ∈ mapKeys m ∨ a ∈ members.map User.id := by
  intro members
  induction members with
  | nil =>
    intro m
    constructor
    · exact id
    · intro a
      simp
  | cons u us ih =>
    intro m
    constructor
    · intro h
      rw [List.foldl_cons]
      exact (ih _).1 (nodup_mapKeys_mapSet _ _ _ h)
    · intro a
      rw [List.foldl_cons]
      rw [(ih _).2 a, mem_mapKeys_mapSet]
      simp only [List.map_cons, List.mem_cons]
      constructor
      · rintro ((h | h) | h)
        · exact Or.inr (Or.inl h)
        · exact Or.inl h
        · exact Or.inr (Or.inr h)
      · rintro (h | h | h)
        · exact Or.inl (Or.inr h)
        · exact Or.inl (Or.inl h)
        · exact Or.inr h

theorem initBalanceMap_keys_nodup (groupId : String) (members : List User) :
    (mapKeys (initBalanceMap groupId members)).Nodup :=
  (initBalanceMap_fold_keys groupId members []).1 (by simp [mapKeys])

theorem mem_initBalanceMap_keys (groupId : String) (members : List User) (a : String) :
    a ∈ mapKeys (initBalanceMap groupId members) ↔ a ∈ members.map User.id := by
  rw [initBalanceMap, (initBalanceMap_fold_keys groupId members []).2 a]
  simp [mapKeys]

theorem mapNetSum_nil : mapNetSum [] = 0 := rfl

theorem mapNetSum_cons (e : String × UserBalance) (m : List (String × UserBalance)) :
    mapNetSum (e :: m) = (e.2.totalLent - e.2.totalOwed) + mapNetSum m := by
  simp [mapNetSum]

theorem mapNetSum_update_addLent (a : ℚ) :
    ∀ (m : List (String × UserBalance)) (k : String),
      (mapKeys m).Nodup → k ∈ mapKeys m →
      mapNetSum (mapUpdate k (addLent a) m) = mapNetSum m + a := by
  intro m
  induction m with
  | nil => intro k _ hmem; simp [mapKeys] at hmem
  | cons e m ih =>
    intro k hnd hmem
    rw [mapKeys, List.map_cons, List.nodup_cons] at hnd
    by_cases hk : e.1 = k
    · have hnot : k ∉ mapKeys m := by rw [← hk]; exact hnd.1
      simp only [mapUpdate, List.map_cons, if_pos hk]
      have hrest : List.map (fun e => if e.1 = k then (e.1, addLent a e.2) else e) m = m := by
        have := mapUpdate_not_mem k (addLent a) m hnot
        simpa [mapUpdate] using this
      rw [hrest, mapNetSum_cons, mapNetSum_cons]
      simp only [addLent]
      ring
    · have hmem2 : k ∈ e.1 :: mapKeys m := hmem
      rcases List.mem_cons.mp hmem2 with hc | hc
      · exact absurd hc.symm hk
      · simp only [mapUpdate, List.map_cons, if_neg hk]
        have ih2 := ih k hnd.2 hc
        simp only [mapUpdate] at ih2
        rw [mapNetSum_cons, mapNetSum_cons, ih2]
        ring

theorem mapNetSum_update_addOwed (a : ℚ) :
    ∀ (m : List (String × UserBalance)) (k : String),
      (mapKeys m).Nodup → k ∈ mapKeys m →
      mapNetSum (mapUpdate k (addOwed a) m) = mapNetSum m - a := by
  intro m
  induction m with
  | nil => intro k _ hmem; simp [mapKeys] at hmem
  | cons e m ih =>
    intro k hnd hmem
    rw [mapKeys, List.map_cons, List.nodup_cons] at hnd
    by_cases hk : e.1 = k
    · have hnot : k ∉ mapKeys m := by rw [← hk]; exact hnd.1
      simp only [mapUpdate, List.map_cons, if_pos hk]
      have hrest : List.map (fun e => if e.1 = k then (e.1, addOwed a e.2) else e) m = m := by
        have := mapUpdate_not_mem k (addOwed a) m hnot
        simpa [mapUpdate] using this
      rw [hrest, mapNetSum_cons, mapNetSum_cons]
      simp only [addOwed]
      ring
    · have hmem2 : k ∈ e.1 :: mapKeys m := hmem
      rcases List.mem_cons.mp hmem2 with hc | hc
      · exact absurd hc.symm hk
      · simp only [mapUpdate, List.map_cons, if_neg hk]
        have ih2 := ih k hnd.2 hc
        simp only [mapUpdate] at ih2
        rw [mapNetSum_cons, mapNetSum_cons, ih2]
        ring

theorem mapNetSum_applyParticipant (m : List (String × UserBalance))
    (p : ExpenseParticipant) (hnd : (mapKeys m).Nodup)
    (hpaid : p.isPaid = false) (hmem : p.userId ∈ mapKeys m) :
    mapNetSum (applyParticipant m p) = mapNetSum m - p.amount := by
  simp only [applyParticipant, hpaid]
  norm_num
  exact mapNetSum_update_addOwed p.amount m p.userId hnd hmem

theorem mapNetSum_foldParticipants :
    ∀ (ps : List ExpenseParticipant) (m : List (String × UserBalance)),
      (mapKeys m).Nodup →
      (∀ p ∈ ps, p.isPaid = false ∧ p.userId ∈ mapKeys m) →
      mapNetSum (ps.foldl applyParticipant m) = mapNetSum m - sumAmounts ps := by
  intro ps
  induction ps with
  | nil =>
    intro m _ _
    rw [List.foldl_nil, sumAmounts_nil]
    ring
  | cons p ps ih =>
    intro m hnd hall
    rw [List.foldl_cons]
    have hp := hall p (List.mem_cons_self _ _)
    have hkeys : mapKeys (applyParticipant m p) = mapKeys m := mapKeys_applyParticipant m p
    rw [ih (applyParticipant m p) (by rw [hkeys]; exact hnd)
        (fun q hq => ⟨(hall q (List.mem_cons_of_mem _ hq)).1,
          by rw [hkeys]; exact (hall q (List.mem_cons_of_mem _ hq)).2⟩),
      mapNetSum_applyParticipant m p hnd hp.1 hp.2, sumAmounts_cons]
    ring

theorem mapNetSum_applyExpense (m : List (String × UserBalance)) (e : Expense)
    (hnd : (mapKeys m).Nodup) (hpayer : e.paidBy ∈ mapKeys m)
    (hparts : ∀ p ∈ e.participants, p.isPaid = false ∧ p.userId ∈ mapKeys m) :
    mapNetSum (applyExpense m e) = mapNetSum m + e.totalAmount - sumAmounts e.participants := by
  simp only [applyExpense]
  have hkeys : mapKeys (mapUpdate e.paidBy (addLent e.totalAmount) m) = mapKeys m :=
    mapKeys_mapUpdate _ _ m
  rw [mapNetSum_foldParticipants e.participants _ (by rw [hkeys]; exact hnd)
      (fun q hq => ⟨(hparts q hq).1, by rw [hkeys]; exact (hparts q hq).2⟩),
    mapNetSum_update_addLent e.totalAmount m e.paidBy hnd hpayer]

theorem mapNetSum_foldExpenses :
    ∀ (es : List Expense) (m : List (String × UserBalance)),
      (mapKeys m).Nodup →
      (∀ e ∈ es, e.paidBy ∈ mapKeys m ∧
        ∀ p ∈ e.participants, p.isPaid = false ∧ p.userId ∈ mapKeys m) →
      mapNetSum (es.foldl applyExpense m) =
        mapNetSum m + (es.map fun e => e.totalAmount - sumAmounts e.participants).sum := by
  intro es
  induction es with
  | nil =>
    intro m _ _
    simp
  | cons e es ih =>
    intro m hnd hall
    rw [List.foldl_cons]
    have he := hall e (List.mem_cons_self _ _)
    have hkeys : mapKeys (applyExpense m e) = mapKeys m := mapKeys_applyExpense m e
    rw [ih (applyExpense m e) (by rw [hkeys]; exact hnd)
        (fun f hf => ⟨by rw [hkeys]; exact (hall f (List.mem_cons_of_mem _ hf)).1,
          fun q hq => ⟨(hall f (List.mem_cons_of_mem _ hf)).2 q hq |>.1,
            by rw [hkeys]; exact ((hall f (List.mem_cons_of_mem _ hf)).2 q hq).2⟩⟩),
      mapNetSum_applyExpense m e hnd he.1 he.2, List.map_cons, List.sum_cons]
    ring

theorem mem_mapSet_cases (k : String) (v : UserBalance) :
    ∀ (m : List (String × UserBalance)) (e : String × UserBalance),
      e ∈ mapSet k v m → e = (k, v) ∨ e ∈ m := by
  intro m
  induction m with
  | nil =>
    intro e h
    simp only [mapSet] at h
    exact Or.inl (List.mem_singleton.mp h)
  | cons f m ih =>
    intro e h
    by_cases hk : f.1 = k
    · simp only [mapSet, if_pos hk] at h
      rcases List.mem_cons.mp h with h | h
      · exact Or.inl (by rw [h, hk])
      · exact Or.inr (List.mem_cons_of_mem _ h)
    · simp only [mapSet, if_neg hk] at h
      rcases List.mem_cons.mp h with h | h
      · exact Or.inr (by simp [h])
      · rcases ih e h with h | h
        · exact Or.inl h
        · exact Or.inr (List.mem_cons_of_mem _ h)

theorem initBalanceMap_fold_zero (groupId : String) :
    ∀ (members : List User) (m : List (String × UserBalance)),
      (∀ e ∈ m, e.2.totalLent = 0 ∧ e.2.totalOwed = 0) →
      ∀ e ∈ members.foldl
        (fun m member => mapSet member.id (zeroBalance groupId member.id) m) m,
        e.2.totalLent = 0 ∧ e.2.totalOwed = 0 := by
  intro members
  induction members with
  | nil => intro m h e he; exact h e he
  | cons u us ih =>
    intro m h e he
    rw [List.foldl_cons] at he
    refine ih _ ?_ e he
    intro f hf
    rcases mem_mapSet_cases _ _ _ _ hf with hf | hf
    · rw [hf]
      exact ⟨rfl, rfl⟩
    · exact h f hf

theorem mapNetSum_of_allZero :
    ∀ m : List (String × UserBalance),
      (∀ e ∈ m, e.2.totalLent = 0 ∧ e.2.totalOwed = 0) → mapNetSum m = 0 := by
  intro m
  induction m with
  | nil => intro _; rfl
  | cons e m ih =>
    intro h
    rw [mapNetSum_cons, (h e (List.mem_cons_self _ _)).1,
      (h e (List.mem_cons_self _ _)).2, ih (fun f hf => h f (List.mem_cons_of_mem _ hf))]
    ring

theorem mapNetSum_initBalanceMap (groupId : String) (members : List User) :
    mapNetSum (initBalanceMap groupId members) = 0 :=
  mapNetSum_of_allZero _
    (initBalanceMap_fold_zero groupId members [] (fun e he => absurd he (List.not_mem_nil e)))

theorem netBalanceSum_setNet :
    ∀ m : List (String × UserBalance),
      netBalanceSum (m.map fun e => setNet e.2) = mapNetSum m := by
  intro m
  induction m with
  | nil => rfl
  | cons e m ih =>
    simp only [List.map_cons, netBalanceSum, mapNetSum, List.sum_cons] at ih ⊢
    rw [ih]
    rfl

theorem abs_deviation_sum (es : List Expense) :
    (∀ e ∈ es, |e.totalAmount - sumAmounts e.participants| ≤ 1 / 100) →
    |(es.map fun e => e.totalAmount - sumAmounts e.participants).sum| ≤
      (es.length : ℚ) * (1 / 100) := by
  induction es with
  | nil =>
    intro _
    simp
  | cons e es ih =>
    intro h
    rw [List.map_cons, List.sum_cons, List.length_cons]
    have h1 := h e (List.mem_cons_self _ _)
    have h2 := ih (fun f hf => h f (List.mem_cons_of_mem _ hf))
    have h3 := abs_add (e.totalAmount - sumAmounts e.participants)
      ((es.map fun e => e.totalAmount - sumAmounts e.participants).sum)
    push_cast
    linarith

/-- C2 (amended): for a resolvable group and expenses whose payer and
participants are all group members, whose shares are all *unpaid*, and
whose share sums match the expense totals within 0.01, the net balances
returned by `calculateUserBalances` sum to zero within 0.01 per expense.
(The claim as stated fails once a share is marked paid — see the
counterexample — and the 0.01 tolerance accumulates per expense.) -/
theorem balance_conservation (state : AppState) (groupId : String) (group : Group)
    (hfind : state.groups.find? (fun g => g.id == groupId) = some group)
    (hexp : ∀ e ∈ state.expenses.filter (fun e => e.groupId == groupId),
      e.paidBy ∈ group.members.map User.id ∧
      (∀ p ∈ e.participants,
        p.userId ∈ group.members.map User.id ∧ p.isPaid = false ∧ 0 ≤ p.amount) ∧
      |e.totalAmount - sumAmounts e.participants| ≤ 1 / 100) :
    |netBalanceSum (calculateUserBalances state groupId)| ≤
      ((state.expenses.filter fun e => e.groupId == groupId).length : ℚ) * (1 / 100) := by
  have hnd := initBalanceMap_keys_nodup groupId group.members
  have hcalc : calculateUserBalances state groupId =
      ((state.expenses.filter fun e => e.groupId == groupId).foldl applyExpense
        (initBalanceMap groupId group.members)).map fun e => setNet e.2 := by
    simp only [calculateUserBalances, hfind]
  have hfold := mapNetSum_foldExpenses
    (state.expenses.filter fun e => e.groupId == groupId)
    (initBalanceMap groupId group.members) hnd
    (by
      intro e he
      obtain ⟨hp, hparts, _⟩ := hexp e he
      refine ⟨?_, ?_⟩
      · rw [mem_initBalanceMap_keys]
        exact hp
      · intro p hq
        obtain ⟨hm, hpaid, _⟩ := hparts p hq
        exact ⟨hpaid, by rw [mem_initBalanceMap_keys]; exact hm⟩)
  rw [hcalc, netBalanceSum_setNet, hfold, mapNetSum_initBalanceMap, zero_add]
  exact abs_deviation_sum _ (fun e he => (hexp e he).2.2)

/-- C2 (counterexample): the spec's own scenario 2 — A pays 300, split
100/100/100, with A's share already marked paid — is self-consistent in
the claim's sense (members, non-negative shares, exact share sum), yet
the net balances are A:+300, B:-100, C:-100, which sum to 100, not 0:
the payer is credited the full total while the paid share is omitted
from `totalOwed`. -/
theorem balance_conservation_counterexample :
    calculateUserBalances paidShareState "g1" =
      [⟨"A", "g1", 0, 300, 300⟩, ⟨"B", "g1", 100, 0, -100⟩, ⟨"C", "g1", 100, 0, -100⟩] ∧
    netBalanceSum (calculateUserBalances paidShareState "g1") = 100 ∧
    ¬ |netBalanceSum (calculateUserBalances paidShareState "g1")| ≤ 1 / 100 ∧
    (∀ e ∈ paidShareState.expenses,
      e.paidBy ∈ abcMembers.map User.id ∧
      (∀ p ∈ e.participants, p.userId ∈ abcMembers.map User.id ∧ 0 ≤ p.amount) ∧
      sumAmounts e.participants = e.totalAmount) := by
  have hcalc : calculateUserBalances paidShareState "g1" =
      [⟨"A", "g1", 0, 300, 300⟩, ⟨"B", "g1", 100, 0, -100⟩, ⟨"C", "g1", 100, 0, -100⟩] := by
    norm_num [calculateUserBalances, paidShareState, abcMembers, initBalanceMap, mapSet,
      mapUpdate, applyExpense, applyParticipant, addLent, addOwed, setNet, zeroBalance,
      List.filter, List.find?]
    with_unfolding_all decide
  refine ⟨hcalc, ?_, ?_, ?_⟩
  · rw [hcalc]
    norm_num [netBalanceSum]
  · rw [hcalc]
    norm_num [netBalanceSum]
  · intro e he
    simp only [paidShareState, List.mem_singleton] at he
    subst he
    refine ⟨by decide, ?_, by norm_num [sumAmounts_cons, sumAmounts_nil]⟩
    intro p hp
    simp only [List.mem_cons, List.not_mem_nil, or_false] at hp
    rcases hp with rfl | rfl | rfl <;> exact ⟨by decide, by norm_num⟩

/-- C2 (witness): the all-unpaid version of the same scenario satisfies
the amended conservation bound. -/
theorem balance_conservation_witness :
    |netBalanceSum (calculateUserBalances unpaidState "g1")| ≤
      ((unpaidState.expenses.filter fun e => e.groupId == "g1").length : ℚ) * (1 / 100) :=
  balance_conservation unpaidState "g1" ⟨"g1", abcMembers⟩ (by decide)
    (by
      intro e he
      have he2 : e = ⟨"e1", "g1", 300, "A",
          [⟨"A", 100, false⟩, ⟨"B", 100, false⟩, ⟨"C", 100, false⟩]⟩ := by
        have he3 := (List.mem_filter.mp he).1
        simpa [unpaidState] using he3
      subst he2
      refine ⟨by decide, ?_, by norm_num [sumAmounts_cons, sumAmounts_nil]⟩
      intro p hp
      simp only [List.mem_cons, List.not_mem_nil, or_false] at hp
      rcases hp with rfl | rfl | rfl <;> exact ⟨by decide, rfl, by norm_num⟩)

end SplitPe
